import Mathlib

/-!
Verification development for the `clone-discord` Discord RPC IPC client
(`discord_rpc_ipc.py`).  The Python source is shallowly embedded below:

* bytes are `Nat` values (< 256 in well-formed streams), byte strings are
  `List Nat`;
* `struct.pack('<II', ...)` / `struct.unpack('<II', ...)` become `le32` /
  `structUnpackII`;
* JSON values are the inductive `Json` (note: floating-point JSON numbers are
  outside the model, matching the claims' scope of integer/string/object data;
  the program itself only sends and receives such values);
* `json.dumps` (default settings: `ensure_ascii=True`, separators `", "` and
  `": "`) becomes `dumps`; `json.loads` becomes `loads`, a recursive-descent
  parser following CPython's `json` scanner, with Python `dict` semantics for
  duplicate object keys (`dictOf`);
* `bytes.decode('utf-8')` / `str.encode('utf-8')` become `utf8Decode` /
  `utf8Encode` (strict UTF-8, surrogates and overlong forms rejected);
* `socket.recv` nondeterminism is modelled by a delivery schedule
  (`ByteConn.sched`), since a single `recv(n)` may deliver fewer than `n`
  bytes;
* `run_rpc_flow`'s command loop is modelled at frame granularity with an
  explicit millisecond clock (`awaitChannels`), each receive carrying the
  wall-clock duration it blocks; `time.sleep(0.1)` advances the clock by
  `POLL_SLEEP = 100`; the connection has no socket timeout, so a receive
  duration is unbounded;
* `try/finally` around the flow body becomes an action trace: the body's
  result is preceded by a `close` action on every exit path.
-/

namespace CloneDiscord

/-! ## Characters that the token rules make awkward to write literally -/

def quoteC : Char := Char.ofNat 34
def backslashC : Char := Char.ofNat 92
def lbraceC : Char := Char.ofNat 123
def rbraceC : Char := Char.ofNat 125
def tabC : Char := Char.ofNat 9
def nlC : Char := Char.ofNat 10
def crC : Char := Char.ofNat 13
def bsC : Char := Char.ofNat 8
def ffC : Char := Char.ofNat 12

/-! ## Little-endian 32-bit header words (`struct.pack('<II', ...)`) -/

/-- Four little-endian bytes of a 32-bit word, as in `struct.pack('<I', n)`. -/
def le32 (n : Nat) : List Nat :=
  [n % 256, n / 256 % 256, n / 65536 % 256, n / 16777216 % 256]

/-- `struct.pack('<II', a, b)`: fails (struct.error) unless both fit in 32
bits. -/
def structPackII (a b : Nat) : Option (List Nat) :=
  if a < 4294967296 ∧ b < 4294967296 then some (le32 a ++ le32 b) else none

/-- `struct.unpack('<II', d)` on a byte string: requires exactly 8 bytes. -/
def structUnpackII (d : List Nat) : Option (Nat × Nat) :=
  match d with
  | [a, b, c, e, f, g, h, i] =>
      some (a + 256 * b + 65536 * c + 16777216 * e,
            f + 256 * g + 65536 * h + 16777216 * i)
  | _ => none

/-! ## The JSON data model -/

/-- JSON values as produced/consumed by Python's `json` module, minus
floating-point numbers (the program only exchanges integers, strings,
booleans, nulls, arrays and string-keyed objects). -/
inductive Json where
  | null
  | bool (b : Bool)
  | int (n : Int)
  | str (s : List Char)
  | arr (elems : List Json)
  | obj (kvs : List (List Char × Json))

/-- First-match association lookup on an object's key/value list (Python
`dict` lookup once keys are unique). -/
def jlookup : List (List Char × Json) → List Char → Option Json
  | [], _ => none
  | (k', v) :: rest, k => if k' = k then some v else jlookup rest k

/-- Python's `d.get(key) == s` for a string `s`: true exactly when the key is
present and maps to that string. -/
def isStrVal (o : Option Json) (s : List Char) : Bool :=
  match o with
  | some (.str t) => decide (t = s)
  | _ => false

/-! ## `json.dumps` (default settings) -/

/-- Lowercase hex digit, as used by Python's `\uXXXX` escapes. -/
def hexDigitC (n : Nat) : Char :=
  if n < 10 then Char.ofNat (48 + n) else Char.ofNat (87 + n)

/-- A `\uXXXX` escape for a code unit `n < 0x10000`. -/
def uEscape (n : Nat) : List Char :=
  [backslashC, 'u', hexDigitC (n / 4096 % 16), hexDigitC (n / 256 % 16),
   hexDigitC (n / 16 % 16), hexDigitC (n % 16)]

/-- Python `json.dumps` escaping of one character with `ensure_ascii=True`
(`py_encode_basestring_ascii`): printable ASCII except quote and backslash is
kept, shorthand escapes for the usual controls, `\uXXXX` for other controls
and all non-ASCII, surrogate pairs above the BMP. -/
def escapeChar (c : Char) : List Char :=
  if c = quoteC then [backslashC, quoteC]
  else if c = backslashC then [backslashC, backslashC]
  else if c = nlC then [backslashC, 'n']
  else if c = crC then [backslashC, 'r']
  else if c = tabC then [backslashC, 't']
  else if c = bsC then [backslashC, 'b']
  else if c = ffC then [backslashC, 'f']
  else if c.toNat < 32 ∨ 127 ≤ c.toNat then
    if c.toNat < 65536 then uEscape c.toNat
    else uEscape (55296 + (c.toNat - 65536) / 1024) ++
         uEscape (56320 + (c.toNat - 65536) % 1024)
  else [c]

def escapeString : List Char → List Char
  | [] => []
  | c :: s => escapeChar c ++ escapeString s

/-- Decimal digits of `n`, most significant first (Python `str(n)` for a
nonnegative integer); fuel-indexed, `fuel > n` suffices. -/
def natToDigitsAux : Nat → Nat → List Char
  | 0, _ => []
  | fuel + 1, n =>
    if n < 10 then [Char.ofNat (48 + n)]
    else natToDigitsAux fuel (n / 10) ++ [Char.ofNat (48 + n % 10)]

def natToDigits (n : Nat) : List Char := natToDigitsAux (n + 1) n

/-- Python `str(i)` for an arbitrary integer. -/
def intToChars (i : Int) : List Char :=
  if i < 0 then '-' :: natToDigits i.natAbs else natToDigits i.toNat

mutual
/-- `json.dumps(data)` with CPython's default separators `", "` / `": "` and
`ensure_ascii=True`. -/
def dumps : Json → List Char
  | .null => "null".data
  | .bool true => "true".data
  | .bool false => "false".data
  | .int n => intToChars n
  | .str s => quoteC :: (escapeString s ++ [quoteC])
  | .arr xs => '[' :: (dumpsList xs ++ [']'])
  | .obj kvs => lbraceC :: (dumpsMembers kvs ++ [rbraceC])

def dumpsList : List Json → List Char
  | [] => []
  | [x] => dumps x
  | x :: y :: xs => dumps x ++ ',' :: ' ' :: dumpsList (y :: xs)

def dumpsMembers : List (List Char × Json) → List Char
  | [] => []
  | [(k, v)] => quoteC :: (escapeString k ++ quoteC :: ':' :: ' ' :: dumps v)
  | (k, v) :: p :: rest =>
      quoteC :: (escapeString k ++ quoteC :: ':' :: ' ' :: dumps v) ++
        ',' :: ' ' :: dumpsMembers (p :: rest)
end

/-! ## UTF-8 (`str.encode('utf-8')` / `bytes.decode('utf-8')`, strict) -/

def utf8EncodeChar (c : Char) : List Nat :=
  let n := c.toNat
  if n < 128 then [n]
  else if n < 2048 then [192 + n / 64, 128 + n % 64]
  else if n < 65536 then [224 + n / 4096, 128 + n / 64 % 64, 128 + n % 64]
  else [240 + n / 262144, 128 + n / 4096 % 64, 128 + n / 64 % 64, 128 + n % 64]

def utf8Encode : List Char → List Nat
  | [] => []
  | c :: s => utf8EncodeChar c ++ utf8Encode s

/-- A UTF-8 continuation byte (`0x80..0xBF`); returns its 6 payload bits. -/
def contByte : List Nat → Option (Nat × List Nat)
  | b :: rest => if 128 ≤ b ∧ b < 192 then some (b - 128, rest) else none
  | [] => none

/-- Fuel-indexed strict UTF-8 decoding; each step consumes at least one
byte, so fuel equal to the input length suffices. -/
def utf8DecodeAux : Nat → List Nat → Option (List Char)
  | _, [] => some []
  | 0, _ :: _ => none
  | fuel + 1, b0 :: rest =>
    if b0 < 128 then (utf8DecodeAux fuel rest).map (Char.ofNat b0 :: ·)
    else if b0 < 194 then none
    else if b0 < 224 then
      (contByte rest).bind fun p1 =>
        (utf8DecodeAux fuel p1.2).map (Char.ofNat ((b0 - 192) * 64 + p1.1) :: ·)
    else if b0 < 240 then
      (contByte rest).bind fun p1 =>
        (contByte p1.2).bind fun p2 =>
          if (b0 = 224 → 32 ≤ p1.1) ∧ (b0 = 237 → p1.1 < 32) then
            (utf8DecodeAux fuel p2.2).map
              (Char.ofNat ((b0 - 224) * 4096 + p1.1 * 64 + p2.1) :: ·)
          else none
    else if b0 < 245 then
      (contByte rest).bind fun p1 =>
        (contByte p1.2).bind fun p2 =>
          (contByte p2.2).bind fun p3 =>
            if (b0 = 240 → 16 ≤ p1.1) ∧ (b0 = 244 → p1.1 < 16) then
              (utf8DecodeAux fuel p3.2).map
                (Char.ofNat ((b0 - 240) * 262144 + p1.1 * 4096 +
                  p2.1 * 64 + p3.1) :: ·)
            else none
    else none

/-- Strict UTF-8 decoding as done by CPython's `bytes.decode('utf-8')`:
continuation bytes checked, overlong forms, surrogates and values above
U+10FFFF rejected. -/
def utf8Decode (bs : List Nat) : Option (List Char) :=
  utf8DecodeAux bs.length bs

/-! ## `json.loads` -/

def isWsC (c : Char) : Bool := c = ' ' || c = tabC || c = nlC || c = crC

def skipWs : List Char → List Char
  | [] => []
  | c :: rest => if isWsC c then skipWs rest else c :: rest

def isDigitC (c : Char) : Bool := 48 ≤ c.toNat && c.toNat ≤ 57

def hexValC (c : Char) : Option Nat :=
  if 48 ≤ c.toNat ∧ c.toNat ≤ 57 then some (c.toNat - 48)
  else if 97 ≤ c.toNat ∧ c.toNat ≤ 102 then some (c.toNat - 87)
  else if 65 ≤ c.toNat ∧ c.toNat ≤ 70 then some (c.toNat - 55)
  else none

/-- Four hex digits after a `\u` escape. -/
def parseHex4 : List Char → Option (Nat × List Char)
  | a :: b :: c :: d :: rest =>
    match hexValC a, hexValC b, hexValC c, hexValC d with
    | some x, some y, some z, some w => some (4096 * x + 256 * y + 16 * z + w, rest)
    | _, _, _, _ => none
  | _ => none

/-- Shorthand escapes accepted by CPython's `py_scanstring`. -/
def escDecode (e : Char) : Option Char :=
  if e = quoteC then some quoteC
  else if e = backslashC then some backslashC
  else if e = '/' then some '/'
  else if e = 'b' then some bsC
  else if e = 'f' then some ffC
  else if e = 'n' then some nlC
  else if e = 'r' then some crC
  else if e = 't' then some tabC
  else none

/-- String contents after the opening quote, CPython `py_scanstring` with
`strict=True`: raw control characters rejected, `\uXXXX` escapes with
surrogate-pair combination.  Divergence from CPython: a lone surrogate escape
is rejected rather than kept (a Lean `Char` cannot carry it); `dumps` never
produces one. -/
def parseStringBody : Nat → List Char → Option (List Char × List Char)
  | 0, _ => none
  | _ + 1, [] => none
  | fuel + 1, c :: rest =>
    if c = quoteC then some ([], rest)
    else if c = backslashC then
      match rest with
      | [] => none
      | e :: rest1 =>
        if e = 'u' then
          match parseHex4 rest1 with
          | none => none
          | some (n, rest2) =>
            if 55296 ≤ n ∧ n ≤ 56319 then
              match rest2 with
              | b :: u :: rest3 =>
                if b = backslashC ∧ u = 'u' then
                  match parseHex4 rest3 with
                  | none => none
                  | some (m, rest4) =>
                    if 56320 ≤ m ∧ m ≤ 57343 then
                      (parseStringBody fuel rest4).map
                        (fun p => (Char.ofNat (65536 + (n - 55296) * 1024 + (m - 56320)) :: p.1, p.2))
                    else none
                else none
              | _ => none
            else if 56320 ≤ n ∧ n ≤ 57343 then none
            else (parseStringBody fuel rest2).map (fun p => (Char.ofNat n :: p.1, p.2))
        else
          match escDecode e with
          | none => none
          | some ch => (parseStringBody fuel rest1).map (fun p => (ch :: p.1, p.2))
    else if c.toNat < 32 then none
    else (parseStringBody fuel rest).map (fun p => (c :: p.1, p.2))

/-- Unsigned decimal number at the head of the input.  CPython's scanner
matches `(-?(?:0|[1-9]\d*))(frac)?(exp)?`; fractional/exponent parts produce
floats, which are outside this model, so such inputs are rejected here
(where CPython would instead produce a float).  A leading-zero numeral such
as `01` is rejected here; CPython matches only the `0` and then fails on the
stray digit at the enclosing level, so both fail on every JSON document. -/
def floatNext : List Char → Bool
  | c :: _ => c = '.' || c = 'e' || c = 'E'
  | [] => false

def parseNatNum (input : List Char) : Option (Nat × List Char) :=
  let ds := input.takeWhile isDigitC
  let rest := input.drop ds.length
  if ds.isEmpty then none
  else if 1 < ds.length ∧ ds.head? = some (Char.ofNat 48) then none
  else if floatNext rest then none
  else some (ds.foldl (fun a c => 10 * a + (c.toNat - 48)) 0, rest)

def parseNumber (input : List Char) : Option (Int × List Char) :=
  match input with
  | c :: rest =>
    if c = '-' then (parseNatNum rest).map (fun p => (-(p.1 : Int), p.2))
    else (parseNatNum input).map (fun p => ((p.1 : Int), p.2))
  | [] => none

/-- Python `dict` update semantics: replace the value at the first occurrence
of the key, else append. -/
def objInsert : List (List Char × Json) → List Char → Json → List (List Char × Json)
  | [], k, v => [(k, v)]
  | (k', v') :: rest, k, v =>
    if k' = k then (k', v) :: rest else (k', v') :: objInsert rest k v

/-- `dict(pairs)`: first-occurrence key order, last value wins. -/
def dictOf (pairs : List (List Char × Json)) : List (List Char × Json) :=
  pairs.foldl (fun acc p => objInsert acc p.1 p.2) []

/-- Tail of the literal `null` after its first character. -/
def kwNull : List Char → Option (List Char)
  | 'u' :: 'l' :: 'l' :: r => some r
  | _ => none

/-- Tail of the literal `true` after its first character. -/
def kwTrue : List Char → Option (List Char)
  | 'r' :: 'u' :: 'e' :: r => some r
  | _ => none

/-- Tail of the literal `false` after its first character. -/
def kwFalse : List Char → Option (List Char)
  | 'a' :: 'l' :: 's' :: 'e' :: r => some r
  | _ => none

mutual
/-- One JSON value at the head of the input (CPython `scan_once`). -/
def parseValue : Nat → List Char → Option (Json × List Char)
  | 0, _ => none
  | _ + 1, [] => none
  | fuel + 1, c :: rest =>
    if c = 'n' then (kwNull rest).map (fun r => (.null, r))
    else if c = 't' then (kwTrue rest).map (fun r => (.bool true, r))
    else if c = 'f' then (kwFalse rest).map (fun r => (.bool false, r))
    else if c = quoteC then
      (parseStringBody rest.length rest).map (fun p => (.str p.1, p.2))
    else if c = '[' then
      match skipWs rest with
      | [] => none
      | c1 :: r1 =>
        if c1 = ']' then some (.arr [], r1)
        else (parseElems fuel (c1 :: r1)).map (fun p => (.arr p.1, p.2))
    else if c = lbraceC then
      match skipWs rest with
      | [] => none
      | c1 :: r1 =>
        if c1 = rbraceC then some (.obj [], r1)
        else (parseMembers fuel (c1 :: r1)).map (fun p => (.obj (dictOf p.1), p.2))
    else (parseNumber (c :: rest)).map (fun p => (.int p.1, p.2))

/-- Array elements after `[` and leading whitespace (CPython `JSONArray`). -/
def parseElems : Nat → List Char → Option (List Json × List Char)
  | 0, _ => none
  | fuel + 1, input =>
    match parseValue fuel input with
    | none => none
    | some (x, rest) =>
      match skipWs rest with
      | [] => none
      | c :: r =>
        if c = ']' then some ([x], r)
        else if c = ',' then
          (parseElems fuel (skipWs r)).map (fun p => (x :: p.1, p.2))
        else none

/-- Object members after the opening brace and leading whitespace (CPython
`JSONObject`). -/
def parseMembers : Nat → List Char → Option (List (List Char × Json) × List Char)
  | 0, _ => none
  | fuel + 1, input =>
    match input with
    | [] => none
    | c :: rest =>
      if c = quoteC then
        match parseStringBody rest.length rest with
        | none => none
        | some (k, rest1) =>
          match skipWs rest1 with
          | [] => none
          | c1 :: r1 =>
            if c1 = ':' then
              match parseValue fuel (skipWs r1) with
              | none => none
              | some (v, rest2) =>
                match skipWs rest2 with
                | [] => none
                | c2 :: r2 =>
                  if c2 = rbraceC then some ([(k, v)], r2)
                  else if c2 = ',' then
                    (parseMembers fuel (skipWs r2)).map (fun p => ((k, v) :: p.1, p.2))
                  else none
            else none
      else none
end

/-- `json.loads(s)`: optional surrounding whitespace around exactly one
value.  The fuel `2 * length + 1` dominates the recursion depth of any value
the input can denote (`fuel_le_dumps` below). -/
def loads (s : List Char) : Option Json :=
  let s1 := skipWs s
  match parseValue (2 * s1.length + 1) s1 with
  | some (j, rest) => if skipWs rest = [] then some j else none
  | none => none

/-! ## Well-formedness: the image of Python data under `json.loads`/dicts -/

/-- Key occurs in an object pair list. -/
def hasKey (kvs : List (List Char × Json)) (k : List Char) : Bool :=
  (jlookup kvs k).isSome

def nodupKeys : List (List Char × Json) → Bool
  | [] => true
  | (k, _) :: rest => !hasKey rest k && nodupKeys rest

mutual
/-- A `Json` value that a Python `dict`-based object graph can denote:
object key lists are duplicate-free (recursively). -/
def jwf : Json → Bool
  | .null => true
  | .bool _ => true
  | .int _ => true
  | .str _ => true
  | .arr xs => jwfList xs
  | .obj kvs => nodupKeys kvs && jwfPairs kvs

def jwfList : List Json → Bool
  | [] => true
  | x :: xs => jwf x && jwfList xs

def jwfPairs : List (List Char × Json) → Bool
  | [] => true
  | (_, v) :: rest => jwf v && jwfPairs rest
end

/-! ## Fuel measure for the parser -/

mutual
/-- Number of fueled parser calls needed to re-read `dumps j`. -/
def Fm : Json → Nat
  | .arr xs => 1 + FmElems xs
  | .obj kvs => 1 + FmMembers kvs
  | _ => 1

def FmElems : List Json → Nat
  | [] => 0
  | x :: xs => 1 + Fm x + FmElems xs

def FmMembers : List (List Char × Json) → Nat
  | [] => 0
  | (_, v) :: rest => 1 + Fm v + FmMembers rest
end

/-! ## `encode_message` / `decode_message` (src/discord_rpc_ipc.py:34-46) -/

/-- `encode_message(opcode, data)`: 8-byte little-endian header (opcode,
payload byte length) followed by the UTF-8 JSON payload; `none` models the
`struct.error` raised when a word does not fit in 32 bits. -/
def encode_message (opcode : Nat) (data : Json) : Option (List Nat) :=
  let payload := utf8Encode (dumps data)
  (structPackII opcode payload.length).map (· ++ payload)

/-- `decode_message(data)`: unpack the first 8 bytes, slice
`data[8:8+length]` (Python slicing never fails: surplus bytes are ignored and
a short buffer yields a short slice), then UTF-8-decode and JSON-parse.
`none` models any raised exception (struct.error, UnicodeDecodeError,
JSONDecodeError). -/
def decode_message (data : List Nat) : Option (Nat × Json) :=
  match structUnpackII (data.take 8) with
  | none => none
  | some (opcode, length) =>
    match utf8Decode ((data.drop 8).take length) with
    | none => none
    | some s =>
      match loads s with
      | none => none
      | some j => some (opcode, j)

/-! ## The socket and `receive_rpc_message` (src/discord_rpc_ipc.py:114-141) -/

/-- A connected stream socket: the bytes the peer will deliver in order, plus
a delivery schedule saying how many bytes each successive `recv` call
returns (the kernel may deliver fewer than requested).  An exhausted `sched`
means subsequent `recv` calls deliver as much as requested; exhausted
`pending` models the peer having closed the stream (`recv` returns `b''`). -/
structure ByteConn where
  pending : List Nat
  sched : List Nat

/-- `conn.recv(n)`: returns at most `n` bytes, possibly fewer. -/
def recv (c : ByteConn) (n : Nat) : List Nat × ByteConn :=
  match c.sched with
  | [] => (c.pending.take n, ⟨c.pending.drop n, []⟩)
  | k :: ks =>
    let m := min n k
    (c.pending.take m, ⟨c.pending.drop m, ks⟩)

/-- `receive_rpc_message(conn)` on the Unix branch: one `recv(8)` for the
header (fewer than 8 bytes delivered → `None`), then one `recv(length)` for
the payload, `json.loads(payload.decode('utf-8'))`; every exception is
swallowed into `None` by the enclosing `try`. -/
def receive_rpc_message (c : ByteConn) : Option (Nat × Json) × ByteConn :=
  let (hd, c1) := recv c 8
  if hd.length < 8 then (none, c1)
  else
    match structUnpackII hd with
    | none => (none, c1)
    | some (opcode, length) =>
      let (pl, c2) := recv c1 length
      match utf8Decode pl with
      | none => (none, c2)
      | some s =>
        match loads s with
        | none => (none, c2)
        | some j => (some (opcode, j), c2)

/-! ## The RPC flow (src/discord_rpc_ipc.py:145-221), frame granularity

The flow's receives are modelled by a list of timed results: each entry is
the value `receive_rpc_message` returned and the wall-clock milliseconds the
blocking call took (the socket has no timeout configured, so a single
receive may take arbitrarily long).  An exhausted list models a receive that
never returns. -/

def POLL_SLEEP : Nat := 100
def CMD_TIMEOUT : Nat := 5000

/-- Result of `run_rpc_flow`'s body, with the clock value (ms since connect)
at which control leaves the loop where timing matters. -/
inductive FlowResult where
  | connectFailed
  | handshakeFailed
  | hsCrashed
  | connectionLost (t : Nat)
  | commandError (msg : Option Json) (t : Nat)
  | channels (data : Json) (t : Nat)
  | timeoutHit (t : Nat)
  | loopCrashed (t : Nat)
  | blocked

/-- Outcome of the handshake response check (lines 158-163): `response is
None or response[1].get('cmd') != 'DISPATCH'` fails; a match extracts
`response[1].get('data', {}).get('session_id')`.  `.get` on a non-dict
raises `AttributeError` (`crashed`). -/
inductive HsOutcome where
  | ready (sessionId : Option Json)
  | failed
  | crashed

def handshake_check (resp : Option (Nat × Json)) : HsOutcome :=
  match resp with
  | none => .failed
  | some (_, .obj kvs) =>
    if isStrVal (jlookup kvs "cmd".data) "DISPATCH".data then
      match (jlookup kvs "data".data).getD (.obj []) with
      | .obj dkvs => .ready (jlookup dkvs "session_id".data)
      | _ => .crashed
    else .failed
  | some (_, _) => .crashed

/-- The success path iterates `data.get('data', [])` and calls
`channel.get(...)` on each element: it completes without raising exactly
when that value is a list of dicts. -/
def printableChannels : Json → Bool
  | .arr xs => xs.all fun e => match e with | .obj _ => true | _ => false
  | _ => false

/-- The `GET_CHANNELS` wait loop (lines 184-213).  `clock` is the current
time, `deadline` the precomputed `time.time() + 5`; the deadline is tested
before each receive; a non-matching frame is followed by `time.sleep(0.1)`. -/
def awaitChannels (nonce : List Char) (deadline : Nat) :
    Nat → List (Nat × Option (Nat × Json)) → FlowResult
  | clock, events =>
    if clock < deadline then
      match events with
      | [] => .blocked
      | (d, r) :: rest =>
        let t := clock + d
        match r with
        | none => .connectionLost t
        | some (_, .obj kvs) =>
          if isStrVal (jlookup kvs "nonce".data) nonce &&
             isStrVal (jlookup kvs "cmd".data) "GET_CHANNELS".data then
            if isStrVal (jlookup kvs "evt".data) "ERROR".data then
              match (jlookup kvs "data".data).getD (.obj []) with
              | .obj dkvs => .commandError (jlookup dkvs "message".data) t
              | _ => .loopCrashed t
            else
              let ch := (jlookup kvs "data".data).getD (.arr [])
              if printableChannels ch then .channels ch t else .loopCrashed t
          else awaitChannels nonce deadline (t + POLL_SLEEP) rest
        | some (_, _) => .loopCrashed t
    else .timeoutHit clock

/-- Observable resource actions of `run_rpc_flow`: closing the connection and
returning (or propagating an exception carrying) a result. -/
inductive Action where
  | close
  | ret (r : FlowResult)

/-- `run_rpc_flow()` as an action trace.  A failed connect returns before the
`try` block, so no close occurs; once connected, the `finally` closes the
connection before control (or an exception) leaves the function; a body that
blocks forever never emits anything. -/
def run_rpc_flow (connectOk : Bool) (nonce : List Char)
    (events : List (Nat × Option (Nat × Json))) : List Action :=
  if connectOk then
    match events with
    | [] => []
    | (d0, resp) :: rest =>
      let body : FlowResult :=
        match handshake_check resp with
        | .failed => .handshakeFailed
        | .crashed => .hsCrashed
        | .ready _ => awaitChannels nonce (d0 + CMD_TIMEOUT) d0 rest
      match body with
      | .blocked => []
      | r => [.close, .ret r]
  else [.ret .connectFailed]

/-! ## `get_ipc_path` / `connect_ipc` (src/discord_rpc_ipc.py:50-71) -/

def PIPE_BASE : String := "discord-ipc-"

/-- Python's `a or b` for `os.environ.get` results: an unset variable
(`None`) and an empty string are both falsy. -/
def orFalsy (a : Option String) (b : String) : String :=
  match a with
  | some s => if s = "" then b else s
  | none => b

/-- `os.environ.get('XDG_RUNTIME_DIR') or ... or '/tmp'`. -/
def temp_dir_of (env : String → Option String) : String :=
  orFalsy (env "XDG_RUNTIME_DIR")
    (orFalsy (env "TMPDIR") (orFalsy (env "TMP") (orFalsy (env "TEMP") "/tmp")))

/-- `os.path.join(dir, name)` for a relative `name`. -/
def pathJoin (dir name : String) : String :=
  if dir = "" then name
  else if dir.data.getLast? = some '/' then dir ++ name
  else dir ++ "/" ++ name

/-- The `for i in range(10)` existence scan, from index `i`, `fuel`
iterations remaining. -/
def scanFrom (fsExists : String → Bool) (dir : String) : Nat → Nat → Option String
  | _, 0 => none
  | i, fuel + 1 =>
    let p := pathJoin dir (PIPE_BASE ++ toString i)
    if fsExists p then some p else scanFrom fsExists dir (i + 1) fuel

/-- `get_ipc_path()` on the Unix branch: pick the temp directory from the
environment chain, then return the first existing `discord-ipc-<i>` for
`i` in `0..9`, else `None`. -/
def get_ipc_path (env : String → Option String) (fsExists : String → Bool) :
    Option String :=
  scanFrom fsExists (temp_dir_of env) 0 10

/-- `connect_ipc()` (Unix branch): resolve the path; on `None` print and
return without touching the socket; otherwise attempt the connect.  The
boolean records whether a connect was attempted. -/
def connect_ipc (env : String → Option String) (fsExists : String → Bool)
    (sockConnect : String → Option ByteConn) : Option ByteConn × Bool :=
  match get_ipc_path env fsExists with
  | none => (none, false)
  | some p => (sockConnect p, true)

/-! ## Header lemmas -/

theorem structUnpackII_le32 (a b : Nat) (ha : a < 4294967296) (hb : b < 4294967296) :
    structUnpackII (le32 a ++ le32 b) = some (a, b) := by
  simp only [le32, List.cons_append, List.nil_append, structUnpackII]
  refine congrArg some (Prod.ext ?_ ?_) <;> simp only [] <;> omega

theorem take8_header (a b : Nat) (p : List Nat) :
    ((le32 a ++ le32 b) ++ p).take 8 = le32 a ++ le32 b := by
  simp [le32, List.take]

theorem drop8_header (a b : Nat) (p : List Nat) :
    ((le32 a ++ le32 b) ++ p).drop 8 = p := by
  simp [le32, List.drop]

/-- C9.  `encode_message` emits the 8-byte little-endian header (opcode,
payload byte length) followed by exactly the UTF-8 JSON payload, and the
length declared in the header is the length of the transmitted payload. -/
theorem encode_message_frame (op : Nat) (j : Json)
    (hop : op < 4294967296)
    (hlen : (utf8Encode (dumps j)).length < 4294967296) :
    encode_message op j =
      some ((le32 op ++ le32 (utf8Encode (dumps j)).length) ++ utf8Encode (dumps j)) ∧
    structUnpackII (le32 op ++ le32 (utf8Encode (dumps j)).length) =
      some (op, (utf8Encode (dumps j)).length) := by
  constructor
  · simp [encode_message, structPackII, hop, hlen]
  · exact structUnpackII_le32 _ _ hop hlen

/-- Witness for C9 at the handshake payload `null` with opcode 0. -/
theorem encode_message_frame_witness :
    encode_message 0 .null =
      some ((le32 0 ++ le32 (utf8Encode (dumps .null)).length) ++ utf8Encode (dumps .null)) :=
  (encode_message_frame 0 .null (by decide) (by decide)).1

/-- C3 counterexample: a frame whose supplied payload (5 bytes) is longer
than the declared length (4) is decoded successfully — `decode_message`
raises nothing and returns the value parsed from the first 4 bytes. -/
theorem decode_message_ignores_surplus :
    decode_message ((le32 0 ++ le32 4) ++ (utf8Encode "null".data ++ [32])) = some (0, .null) ∧
    (utf8Encode "null".data ++ [32]).length = 5 ∧
    structUnpackII (le32 0 ++ le32 4) = some (0, 4) := by
  refine ⟨rfl, rfl, rfl⟩

/-- C3 as amended: `decode_message` performs no length check at all — its
result depends only on the first `length` bytes after the header, so a
surplus is silently ignored and a truncated payload is parsed as-is
(failing only if the resulting slice is not valid UTF-8 JSON). -/
theorem decode_message_take_only (op L : Nat) (p : List Nat)
    (hop : op < 4294967296) (hL : L < 4294967296) :
    decode_message ((le32 op ++ le32 L) ++ p) =
      decode_message ((le32 op ++ le32 L) ++ p.take L) := by
  unfold decode_message
  rw [take8_header, take8_header, drop8_header, drop8_header,
    structUnpackII_le32 _ _ hop hL]
  simp [List.take_take]

/-- Witness for the amended C3: decoding a frame with two surplus bytes
coincides with decoding the properly truncated frame. -/
theorem decode_message_take_only_witness :
    decode_message ((le32 1 ++ le32 4) ++ (utf8Encode "true".data ++ [32, 32])) =
      decode_message ((le32 1 ++ le32 4) ++ (utf8Encode "true".data ++ [32, 32]).take 4) :=
  decode_message_take_only 1 4 (utf8Encode "true".data ++ [32, 32]) (by decide) (by decide)

/-! ## `receive_rpc_message`: short reads (C6, C10) -/

/-- C6 counterexample: a valid 12-byte frame is fully available on the
stream, but the kernel delivers only 3 bytes to the single `recv(8)` call;
`receive_rpc_message` reports `None` (the connection-closed signal) instead
of blocking for the remaining bytes — while the same stream with full
delivery yields the frame. -/
theorem receive_short_header_read :
    (receive_rpc_message ⟨(le32 0 ++ le32 4) ++ utf8Encode "null".data, [3]⟩).1 = none ∧
    ((le32 0 ++ le32 4) ++ utf8Encode "null".data).length = 12 ∧
    (receive_rpc_message ⟨(le32 0 ++ le32 4) ++ utf8Encode "null".data, []⟩).1 =
      some (0, .null) := by
  refine ⟨rfl, rfl, rfl⟩

/-- C6 as amended: each read is one `recv(n)` call that may deliver fewer
than `n` bytes; whenever the first delivery is shorter than the 8-byte
header, the function returns `None` — exactly the closed-stream result —
rather than reading again. -/
theorem receive_short_header (data : List Nat) (k : Nat) (ks : List Nat)
    (h : min k data.length < 8) :
    (receive_rpc_message ⟨data, k :: ks⟩).1 = none ∧
    (receive_rpc_message ⟨[], []⟩).1 = none := by
  constructor
  · unfold receive_rpc_message recv
    have hlen : (data.take (min 8 k)).length < 8 := by
      rw [List.length_take]; omega
    simp only [if_pos hlen]
  · rfl

/-- Witness for the amended C6: 12 bytes pending, 3 delivered. -/
theorem receive_short_header_witness :
    (receive_rpc_message ⟨(le32 1 ++ le32 4) ++ utf8Encode "true".data, [3, 9]⟩).1 = none :=
  (receive_short_header ((le32 1 ++ le32 4) ++ utf8Encode "true".data) 3 [9] (by decide)).1

/-- C10 counterexample: the header declares a 6-byte payload (`123456`), the
kernel delivers only 3 of them to the single `recv(6)`, and the truncated
bytes `123` happen to be valid JSON — the short payload read is returned as
a successful message `(1, 123)` instead of the `None` failure signal. -/
theorem receive_short_payload_parses :
    (receive_rpc_message ⟨(le32 1 ++ le32 6) ++ utf8Encode "123456".data, [8, 3]⟩).1 =
      some (1, .int 123) ∧
    structUnpackII (le32 1 ++ le32 6) = some (1, 6) ∧
    (receive_rpc_message ⟨(le32 1 ++ le32 6) ++ utf8Encode "123456".data, []⟩).1 =
      some (1, .int 123456) := by
  refine ⟨rfl, rfl, rfl⟩

/-- C10 as amended: the failure modes of `receive_rpc_message` that do fail
— a closed stream, a header delivery shorter than 8 bytes, and a fully
delivered payload whose bytes are not valid UTF-8 JSON — all collapse to the
single result `None`, which `run_rpc_flow` presents as a connection loss;
only a short payload delivery whose prefix happens to be valid JSON escapes
this collapse (see the counterexample). -/
theorem receive_failures_collapse :
    (∀ sched : List Nat, (receive_rpc_message ⟨[], sched⟩).1 = none) ∧
    (∀ (data : List Nat) (k : Nat) (ks : List Nat), min k data.length < 8 →
      (receive_rpc_message ⟨data, k :: ks⟩).1 = none) ∧
    (∀ (op L : Nat) (p : List Nat), op < 4294967296 → L < 4294967296 →
      (∀ s, utf8Decode (p.take L) = some s → loads s = none) →
      (receive_rpc_message ⟨(le32 op ++ le32 L) ++ p, []⟩).1 = none) ∧
    (∀ (nonce : List Char) (dl clock d : Nat) (rest : List (Nat × Option (Nat × Json))),
      clock < dl →
      awaitChannels nonce dl clock ((d, none) :: rest) = .connectionLost (clock + d)) := by
  refine ⟨?_, ?_, ?_, ?_⟩
  · intro sched
    unfold receive_rpc_message recv
    cases sched with
    | nil => rfl
    | cons k ks => simp
  · intro data k ks h
    unfold receive_rpc_message recv
    have hlen : (data.take (min 8 k)).length < 8 := by
      rw [List.length_take]; omega
    simp only [if_pos hlen]
  · intro op L p hop hL hbad
    unfold receive_rpc_message recv
    rw [take8_header, drop8_header]
    have h8 : ¬((le32 op ++ le32 L).length < 8) := by simp [le32]
    simp only [if_neg h8, structUnpackII_le32 _ _ hop hL]
    cases hu : utf8Decode (p.take L) with
    | none => simp
    | some s => simp [hbad s hu]
  · intro nonce dl clock d rest h
    rw [awaitChannels]
    simp [if_pos h]

/-- Witness for the amended C10: a fully delivered frame whose payload is
the single byte `0xFF` (invalid UTF-8) is reported as `None`. -/
theorem receive_failures_collapse_witness :
    (receive_rpc_message ⟨(le32 1 ++ le32 1) ++ [255], []⟩).1 = none :=
  receive_failures_collapse.2.2.1 1 1 [255] (by decide) (by decide)
    (fun s hs => by simp [utf8Decode, utf8DecodeAux] at hs)

/-! ## The command/response loop (C1, C4) -/

/-- C1.  One step of the `GET_CHANNELS` wait loop on a received frame, while
the deadline has not passed: a frame whose `nonce` or `cmd` does not match
is discarded (the loop sleeps 100 ms and continues on the remaining
events); a matching frame with `evt == 'ERROR'` terminates the loop with
the server-supplied `data.message`; a matching frame without the error
event terminates the loop returning the frame's `data`. -/
theorem awaitChannels_step (nonce : List Char) (dl clock d op : Nat)
    (kvs : List (List Char × Json)) (rest : List (Nat × Option (Nat × Json)))
    (ht : clock < dl) :
    ((isStrVal (jlookup kvs "nonce".data) nonce &&
        isStrVal (jlookup kvs "cmd".data) "GET_CHANNELS".data) = false →
      awaitChannels nonce dl clock ((d, some (op, .obj kvs)) :: rest) =
        awaitChannels nonce dl (clock + d + POLL_SLEEP) rest) ∧
    ((isStrVal (jlookup kvs "nonce".data) nonce &&
        isStrVal (jlookup kvs "cmd".data) "GET_CHANNELS".data) = true →
      isStrVal (jlookup kvs "evt".data) "ERROR".data = true →
      ∀ dkvs, (jlookup kvs "data".data).getD (.obj []) = .obj dkvs →
      awaitChannels nonce dl clock ((d, some (op, .obj kvs)) :: rest) =
        .commandError (jlookup dkvs "message".data) (clock + d)) ∧
    ((isStrVal (jlookup kvs "nonce".data) nonce &&
        isStrVal (jlookup kvs "cmd".data) "GET_CHANNELS".data) = true →
      isStrVal (jlookup kvs "evt".data) "ERROR".data = false →
      printableChannels ((jlookup kvs "data".data).getD (.arr [])) = true →
      awaitChannels nonce dl clock ((d, some (op, .obj kvs)) :: rest) =
        .channels ((jlookup kvs "data".data).getD (.arr [])) (clock + d)) := by
  refine ⟨?_, ?_, ?_⟩
  · intro hmm
    rw [awaitChannels]
    simp [if_pos ht, hmm]
  · intro hmm herr dkvs hd
    rw [awaitChannels]
    simp [if_pos ht, hmm, herr, hd]
  · intro hmm herr hpr
    rw [awaitChannels]
    simp [if_pos ht, hmm, herr, hpr]

/-- Witness for C1, following the spec's correlation vector: a frame with
nonce `X` / command `OTHER` is discarded by the loop awaiting nonce `ABC`. -/
theorem awaitChannels_step_witness :
    awaitChannels "ABC".data 5000 0
        [(10, some (1, .obj [("nonce".data, .str "X".data), ("cmd".data, .str "OTHER".data)]))] =
      awaitChannels "ABC".data 5000 (0 + 10 + POLL_SLEEP) [] :=
  (awaitChannels_step "ABC".data 5000 0 10 1
      [("nonce".data, .str "X".data), ("cmd".data, .str "OTHER".data)] []
      (by decide)).1 (by decide)

/-- C4 counterexample: the socket has no timeout, so a receive may block
arbitrarily long; with the 5000 ms deadline, a single read blocking for
1 000 000 ms returns control only at t = 1 000 000, far beyond deadline plus
one poll interval. -/
theorem awaitChannels_unbounded_read :
    awaitChannels "A".data 5000 0 [(1000000, none)] = .connectionLost 1000000 ∧
    5000 + POLL_SLEEP < 1000000 := by
  refine ⟨rfl, by decide⟩

/-- Clock value at which a loop result hands control back (none for a body
that never returns). -/
def resultTime : FlowResult → Option Nat
  | .connectionLost t => some t
  | .commandError _ t => some t
  | .channels _ t => some t
  | .timeoutHit t => some t
  | .loopCrashed t => some t
  | _ => none

/-- C4 as amended: the deadline is checked only between receives and no
connection-level timeout bounds a single receive; consequently the loop's
return time is bounded by `deadline + D + POLL_SLEEP` only under the
assumption that every receive completes within `D` ms — with an unbounded
receive the return time is unbounded (see the counterexample). -/
theorem awaitChannels_bounded_when_reads_bounded (nonce : List Char) (dl D : Nat) :
    ∀ (events : List (Nat × Option (Nat × Json))) (clock : Nat),
      clock ≤ dl + D + POLL_SLEEP →
      (∀ p ∈ events, p.1 ≤ D) →
      ∀ t, resultTime (awaitChannels nonce dl clock events) = some t →
        t ≤ dl + D + POLL_SLEEP := by
  intro events
  induction events with
  | nil =>
    intro clock hc _ t ht
    rw [awaitChannels] at ht
    by_cases h : clock < dl
    · rw [if_pos h] at ht; exact absurd ht (by simp [resultTime])
    · rw [if_neg h] at ht
      simp only [resultTime, Option.some.injEq] at ht
      omega
  | cons e rest ih =>
    intro clock hc hd t ht
    obtain ⟨d, r⟩ := e
    have hdD : d ≤ D := hd (d, r) (List.mem_cons_self _ _)
    have hrest : ∀ p ∈ rest, p.1 ≤ D := fun p hp => hd p (List.mem_cons_of_mem _ hp)
    rw [awaitChannels] at ht
    by_cases h : clock < dl
    · rw [if_pos h] at ht
      match r with
      | none =>
        simp only [resultTime, Option.some.injEq] at ht
        omega
      | some (op, .obj kvs) =>
        simp only [] at ht
        by_cases hm : (isStrVal (jlookup kvs "nonce".data) nonce &&
            isStrVal (jlookup kvs "cmd".data) "GET_CHANNELS".data) = true
        · rw [if_pos hm] at ht
          by_cases he : isStrVal (jlookup kvs "evt".data) "ERROR".data = true
          · rw [if_pos he] at ht
            match hdkvs : (jlookup kvs "data".data).getD (.obj []) with
            | .obj dkvs =>
              rw [hdkvs] at ht
              simp only [resultTime, Option.some.injEq] at ht
              omega
            | .null | .bool _ | .int _ | .str _ | .arr _ =>
              rw [hdkvs] at ht
              simp only [resultTime, Option.some.injEq] at ht
              omega
          · rw [if_neg he] at ht
            by_cases hp : printableChannels ((jlookup kvs "data".data).getD (.arr [])) = true
            · rw [if_pos hp] at ht
              simp only [resultTime, Option.some.injEq] at ht
              omega
            · rw [if_neg hp] at ht
              simp only [resultTime, Option.some.injEq] at ht
              omega
        · rw [if_neg hm] at ht
          exact ih (clock + d + POLL_SLEEP) (by simp [POLL_SLEEP] at hc ⊢; omega) hrest t ht
      | some (op, .null) | some (op, .bool _) | some (op, .int _)
      | some (op, .str _) | some (op, .arr _) =>
        simp only [resultTime, Option.some.injEq] at ht
        omega
    · rw [if_neg h] at ht
      simp only [resultTime, Option.some.injEq] at ht
      omega

/-- Witness for the amended C4: with every read bounded by 50 ms, a
connection loss at t = 50 is within the bound. -/
theorem awaitChannels_bounded_witness :
    resultTime (awaitChannels "A".data 5000 0 [(50, none)]) = some 50 ∧
    50 ≤ 5000 + 50 + POLL_SLEEP :=
  ⟨rfl, awaitChannels_bounded_when_reads_bounded "A".data 5000 50 [(50, none)] 0
      (by decide) (by intro p hp; simp at hp; subst hp; decide) 50 rfl⟩

/-! ## Handshake (C5) and resource scoping (C7) -/

/-- C5.  After the handshake is sent: a first response whose `cmd` field is
the ready indicator `DISPATCH` reaches the ready state with the session id
taken from `data.session_id`; any other `cmd` value fails; a closed
connection or a decode failure (both surfacing as `None` from
`receive_rpc_message`) fails; and a failed handshake is terminal — the flow
closes the connection and returns without reading any further event, so the
outcome does not depend on the remaining traffic. -/
theorem handshake_outcomes (nonce : List Char) :
    (∀ (op : Nat) (kvs dkvs : List (List Char × Json)),
      isStrVal (jlookup kvs "cmd".data) "DISPATCH".data = true →
      (jlookup kvs "data".data).getD (.obj []) = .obj dkvs →
      handshake_check (some (op, .obj kvs)) = .ready (jlookup dkvs "session_id".data)) ∧
    (∀ (op : Nat) (kvs : List (List Char × Json)),
      isStrVal (jlookup kvs "cmd".data) "DISPATCH".data = false →
      handshake_check (some (op, .obj kvs)) = .failed) ∧
    (handshake_check none = .failed) ∧
    (∀ (d0 : Nat) (resp : Option (Nat × Json)) (rest : List (Nat × Option (Nat × Json))),
      handshake_check resp = .failed →
      run_rpc_flow true nonce ((d0, resp) :: rest) = [.close, .ret .handshakeFailed]) := by
  refine ⟨?_, ?_, rfl, ?_⟩
  · intro op kvs dkvs hcmd hdata
    unfold handshake_check
    simp [hcmd, hdata]
  · intro op kvs hcmd
    unfold handshake_check
    simp [hcmd]
  · intro d0 resp rest hf
    unfold run_rpc_flow
    simp [hf]

/-- Witness for C5: a `DISPATCH` response yields the ready state with its
`session_id`, applied at a concrete frame. -/
theorem handshake_outcomes_witness :
    handshake_check (some (0, .obj
        [("cmd".data, .str "DISPATCH".data),
         ("data".data, .obj [("session_id".data, .str "s1".data)])])) =
      .ready (some (.str "s1".data)) :=
  (handshake_outcomes "A".data).1 0
    [("cmd".data, .str "DISPATCH".data),
     ("data".data, .obj [("session_id".data, .str "s1".data)])]
    [("session_id".data, .str "s1".data)] (by decide) rfl

/-- C7.  Once the connect has succeeded, every exit of `run_rpc_flow` —
normal return or propagated exception — is preceded by exactly one close of
the connection: any trace containing a returned result is precisely
`[close, ret r]`. -/
theorem flow_close_once (nonce : List Char)
    (events : List (Nat × Option (Nat × Json))) (r : FlowResult)
    (h : Action.ret r ∈ run_rpc_flow true nonce events) :
    run_rpc_flow true nonce events = [.close, .ret r] := by
  unfold run_rpc_flow at h ⊢
  match events with
  | [] => simp at h
  | (d0, resp) :: rest =>
    simp only [if_pos] at h ⊢
    generalize hb : (match handshake_check resp with
        | .failed => FlowResult.handshakeFailed
        | .crashed => FlowResult.hsCrashed
        | .ready _ => awaitChannels nonce (d0 + CMD_TIMEOUT) d0 rest) = body at h ⊢
    match body with
    | .blocked => simp at h
    | .connectFailed | .handshakeFailed | .hsCrashed | .connectionLost _
    | .commandError _ _ | .channels _ _ | .timeoutHit _ | .loopCrashed _ =>
      simp only [List.mem_cons, List.mem_singleton] at h
      rcases h with h | h | h
      · exact absurd h (by simp)
      · rw [h]
      · exact absurd h (by simp)

/-- Witness for C7: the handshake-failure exit closes before returning. -/
theorem flow_close_once_witness :
    run_rpc_flow true "A".data [(5, none)] = [.close, .ret .handshakeFailed] :=
  flow_close_once "A".data [(5, none)] .handshakeFailed
    (by show Action.ret .handshakeFailed ∈ [Action.close, Action.ret .handshakeFailed]
        exact List.mem_cons_of_mem _ (List.mem_cons_self _ _))

/-! ## Endpoint discovery (C8) -/

theorem scanFrom_found (fsExists : String → Bool) (dir : String) :
    ∀ (fuel i0 k : Nat), k < fuel →
      fsExists (pathJoin dir (PIPE_BASE ++ toString (i0 + k))) = true →
      (∀ j < k, fsExists (pathJoin dir (PIPE_BASE ++ toString (i0 + j))) = false) →
      scanFrom fsExists dir i0 fuel =
        some (pathJoin dir (PIPE_BASE ++ toString (i0 + k))) := by
  intro fuel
  induction fuel with
  | zero => intro i0 k hk; omega
  | succ fuel ih =>
    intro i0 k hk hex hbefore
    rw [scanFrom]
    match k with
    | 0 =>
      simp only [Nat.add_zero] at hex ⊢
      simp [hex]
    | k + 1 =>
      have h0 : fsExists (pathJoin dir (PIPE_BASE ++ toString (i0 + 0))) = false :=
        hbefore 0 (Nat.succ_pos k)
      simp only [Nat.add_zero] at h0
      simp only [h0, Bool.false_eq_true, if_false]
      have := ih (i0 + 1) k (by omega)
        (by rw [show i0 + 1 + k = i0 + (k + 1) by omega]; exact hex)
        (by intro j hj
            rw [show i0 + 1 + j = i0 + (j + 1) by omega]
            exact hbefore (j + 1) (by omega))
      rw [this, show i0 + 1 + k = i0 + (k + 1) by omega]

theorem scanFrom_none (fsExists : String → Bool) (dir : String) :
    ∀ (fuel i0 : Nat),
      (∀ j < fuel, fsExists (pathJoin dir (PIPE_BASE ++ toString (i0 + j))) = false) →
      scanFrom fsExists dir i0 fuel = none := by
  intro fuel
  induction fuel with
  | zero => intro i0 _; rfl
  | succ fuel ih =>
    intro i0 h
    rw [scanFrom]
    have h0 := h 0 (Nat.succ_pos fuel)
    simp only [Nat.add_zero] at h0
    simp only [h0, Bool.false_eq_true, if_false]
    exact ih (i0 + 1) (by
      intro j hj
      rw [show i0 + 1 + j = i0 + (j + 1) by omega]
      exact h (j + 1) (by omega))

/-- C8.  On the domain-socket branch: the candidate directory is the first
truthy variable of the priority chain `XDG_RUNTIME_DIR, TMPDIR, TMP, TEMP`
with the fixed fallback `/tmp`; `get_ipc_path` tests `discord-ipc-0` through
`discord-ipc-9` in that directory and returns the first existing path; if
none of the ten exists it returns `None`, in which case `connect_ipc`
returns without ever attempting a connect. -/
theorem ipc_path_discovery :
    (∀ env : String → Option String,
      env "XDG_RUNTIME_DIR" = none → env "TMPDIR" = none →
      env "TMP" = none → env "TEMP" = none → temp_dir_of env = "/tmp") ∧
    (∀ (env : String → Option String) (d : String),
      env "XDG_RUNTIME_DIR" = some d → d ≠ "" → temp_dir_of env = d) ∧
    (∀ (env : String → Option String) (fsExists : String → Bool) (k : Nat), k < 10 →
      fsExists (pathJoin (temp_dir_of env) (PIPE_BASE ++ toString k)) = true →
      (∀ j < k, fsExists (pathJoin (temp_dir_of env) (PIPE_BASE ++ toString j)) = false) →
      get_ipc_path env fsExists =
        some (pathJoin (temp_dir_of env) (PIPE_BASE ++ toString k))) ∧
    (∀ (env : String → Option String) (fsExists : String → Bool),
      (∀ j < 10, fsExists (pathJoin (temp_dir_of env) (PIPE_BASE ++ toString j)) = false) →
      get_ipc_path env fsExists = none) ∧
    (∀ (env : String → Option String) (fsExists : String → Bool)
       (sockConnect : String → Option ByteConn),
      get_ipc_path env fsExists = none →
      connect_ipc env fsExists sockConnect = (none, false)) := by
  refine ⟨?_, ?_, ?_, ?_, ?_⟩
  · intro env h1 h2 h3 h4
    simp [temp_dir_of, h1, h2, h3, h4, orFalsy]
  · intro env d h1 hd
    simp [temp_dir_of, h1, orFalsy, hd]
  · intro env fsExists k hk hex hbefore
    have := scanFrom_found fsExists (temp_dir_of env) 10 0 k hk
      (by simpa using hex) (by simpa using hbefore)
    simpa [get_ipc_path] using this
  · intro env fsExists h
    exact scanFrom_none fsExists (temp_dir_of env) 10 0 (by simpa using h)
  · intro env fsExists sockConnect h
    simp [connect_ipc, h]

/-- Witness for C8: no environment variables set, only `discord-ipc-3`
exists in `/tmp`; discovery returns it. -/
theorem ipc_path_discovery_witness :
    get_ipc_path (fun _ => none) (fun s => decide (s = "/tmp/discord-ipc-3")) =
      some (pathJoin (temp_dir_of (fun _ => none)) (PIPE_BASE ++ toString 3)) :=
  ipc_path_discovery.2.2.1 (fun _ => none) (fun s => decide (s = "/tmp/discord-ipc-3"))
    3 (by decide) (by decide) (by decide)

/-! ## Toward C2: UTF-8 round trip -/

theorem char_toNat_valid (c : Char) :
    c.toNat < 55296 ∨ (57343 < c.toNat ∧ c.toNat < 1114112) := c.valid

theorem contByte_cons (b : Nat) (t : List Nat) (h : 128 ≤ b ∧ b < 192) :
    contByte (b :: t) = some (b - 128, t) := by
  simp only [contByte]
  rw [if_pos h]

theorem utf8DecodeAux_encode :
    ∀ (s : List Char) (fuel : Nat), (utf8Encode s).length ≤ fuel →
      utf8DecodeAux fuel (utf8Encode s) = some s := by
  intro s
  induction s with
  | nil =>
    intro fuel _
    simp [utf8Encode, utf8DecodeAux]
  | cons c s ih =>
    intro fuel hf
    have hv := char_toNat_valid c
    rw [show utf8Encode (c :: s) = utf8EncodeChar c ++ utf8Encode s from rfl] at hf ⊢
    by_cases h1 : c.toNat < 128
    · have he : utf8EncodeChar c = [c.toNat] := by
        simp [utf8EncodeChar, h1]
      rw [he] at hf ⊢
      simp only [List.length_append, List.length_cons, List.length_nil] at hf
      obtain ⟨f, rfl⟩ : ∃ f, fuel = f + 1 := ⟨fuel - 1, by omega⟩
      rw [List.cons_append, List.nil_append, utf8DecodeAux, if_pos h1,
        ih f (by omega)]
      simp [Char.ofNat_toNat]
    · by_cases h2 : c.toNat < 2048
      · have he : utf8EncodeChar c = [192 + c.toNat / 64, 128 + c.toNat % 64] := by
          simp [utf8EncodeChar, h1, h2]
        rw [he] at hf ⊢
        simp only [List.length_append, List.length_cons, List.length_nil] at hf
        obtain ⟨f, rfl⟩ : ∃ f, fuel = f + 1 := ⟨fuel - 1, by omega⟩
        rw [List.cons_append, List.cons_append, List.nil_append, utf8DecodeAux,
          if_neg (by omega), if_neg (by omega), if_pos (by omega),
          contByte_cons _ _ (by omega), Option.some_bind]
        simp only []
        rw [ih f (by omega)]
        have : (192 + c.toNat / 64 - 192) * 64 + (128 + c.toNat % 64 - 128) = c.toNat := by
          omega
        simp [this, Char.ofNat_toNat]
        rw [show c.toNat / 64 * 64 + c.toNat % 64 = c.toNat by omega, Char.ofNat_toNat]
      · by_cases h3 : c.toNat < 65536
        · have he : utf8EncodeChar c =
              [224 + c.toNat / 4096, 128 + c.toNat / 64 % 64, 128 + c.toNat % 64] := by
            simp [utf8EncodeChar, h1, h2, h3]
          rw [he] at hf ⊢
          simp only [List.length_append, List.length_cons, List.length_nil] at hf
          obtain ⟨f, rfl⟩ : ∃ f, fuel = f + 1 := ⟨fuel - 1, by omega⟩
          rw [List.cons_append, List.cons_append, List.cons_append, List.nil_append,
            utf8DecodeAux,
            if_neg (by omega), if_neg (by omega), if_neg (by omega), if_pos (by omega),
            contByte_cons _ _ (by omega), Option.some_bind]
          simp only []
          rw [contByte_cons _ _ (by omega), Option.some_bind]
          simp only []
          rw [if_pos (by refine ⟨?_, ?_⟩ <;> intro h <;> omega), ih f (by omega)]
          have : (224 + c.toNat / 4096 - 224) * 4096 +
              (128 + c.toNat / 64 % 64 - 128) * 64 + (128 + c.toNat % 64 - 128) =
              c.toNat := by omega
          simp [this, Char.ofNat_toNat]
          rw [show c.toNat / 4096 * 4096 + c.toNat / 64 % 64 * 64 + c.toNat % 64 =
            c.toNat by omega, Char.ofNat_toNat]
        · have he : utf8EncodeChar c =
              [240 + c.toNat / 262144, 128 + c.toNat / 4096 % 64,
               128 + c.toNat / 64 % 64, 128 + c.toNat % 64] := by
            simp [utf8EncodeChar, h1, h2, h3]
          rw [he] at hf ⊢
          simp only [List.length_append, List.length_cons, List.length_nil] at hf
          obtain ⟨f, rfl⟩ : ∃ f, fuel = f + 1 := ⟨fuel - 1, by omega⟩
          rw [List.cons_append, List.cons_append, List.cons_append, List.cons_append,
            List.nil_append, utf8DecodeAux,
            if_neg (by omega), if_neg (by omega), if_neg (by omega), if_neg (by omega),
            if_pos (by omega),
            contByte_cons _ _ (by omega), Option.some_bind]
          simp only []
          rw [contByte_cons _ _ (by omega), Option.some_bind]
          simp only []
          rw [contByte_cons _ _ (by omega), Option.some_bind]
          simp only []
          rw [if_pos (by refine ⟨?_, ?_⟩ <;> intro h <;> omega), ih f (by omega)]
          have : (240 + c.toNat / 262144 - 240) * 262144 +
              (128 + c.toNat / 4096 % 64 - 128) * 4096 +
              (128 + c.toNat / 64 % 64 - 128) * 64 + (128 + c.toNat % 64 - 128) =
              c.toNat := by omega
          simp [this, Char.ofNat_toNat]
          rw [show c.toNat / 262144 * 262144 + c.toNat / 4096 % 64 * 4096 +
            c.toNat / 64 % 64 * 64 + c.toNat % 64 = c.toNat by omega, Char.ofNat_toNat]

/-- `bytes.decode('utf-8')` inverts `str.encode('utf-8')`. -/
theorem utf8Decode_encode (s : List Char) :
    utf8Decode (utf8Encode s) = some s :=
  utf8DecodeAux_encode s (utf8Encode s).length (Nat.le_refl _)

/-! ## Toward C2: numerals -/

/-- Character contexts in which a numeral's end is correctly delimited: the
characters that follow a serialized number inside any `dumps` output. -/
def numOkB : List Char → Bool
  | [] => true
  | c :: _ => !(isDigitC c || c = '.' || c = 'e' || c = 'E')

theorem ntd_aux_ne_nil : ∀ (fuel n : Nat), n < fuel → natToDigitsAux fuel n ≠ [] := by
  intro fuel
  induction fuel with
  | zero => intro n h; omega
  | succ fuel ih =>
    intro n _
    rw [natToDigitsAux]
    by_cases h10 : n < 10
    · simp [h10]
    · rw [if_neg h10]
      intro hc
      rcases List.append_eq_nil.mp hc with ⟨_, h2⟩
      exact List.cons_ne_nil _ _ h2

theorem ntd_aux_digits : ∀ (fuel n : Nat), n < fuel →
    ∀ c ∈ natToDigitsAux fuel n, isDigitC c = true := by
  intro fuel
  induction fuel with
  | zero => intro n h; omega
  | succ fuel ih =>
    intro n hn c hc
    rw [natToDigitsAux] at hc
    by_cases h10 : n < 10
    · rw [if_pos h10] at hc
      simp only [List.mem_singleton] at hc
      subst hc
      exact (by decide : ∀ m < 10, isDigitC (Char.ofNat (48 + m)) = true) n h10
    · rw [if_neg h10] at hc
      rcases List.mem_append.mp hc with h | h
      · exact ih (n / 10) (by omega) c h
      · simp only [List.mem_singleton] at h
        subst h
        exact (by decide : ∀ m < 10, isDigitC (Char.ofNat (48 + m)) = true) (n % 10) (by omega)

theorem ntd_aux_head : ∀ (fuel n : Nat), n < fuel → n ≠ 0 →
    (natToDigitsAux fuel n).head? ≠ some (Char.ofNat 48) := by
  intro fuel
  induction fuel with
  | zero => intro n h; omega
  | succ fuel ih =>
    intro n hn h0
    rw [natToDigitsAux]
    by_cases h10 : n < 10
    · rw [if_pos h10]
      simp only [List.head?_cons, ne_eq, Option.some.injEq]
      exact (by decide : ∀ m < 10, m ≠ 0 → ¬(Char.ofNat (48 + m) = Char.ofNat 48)) n h10 h0
    · rw [if_neg h10]
      rw [List.head?_append_of_ne_nil _ (ntd_aux_ne_nil fuel (n / 10) (by omega))]
      exact ih (n / 10) (by omega) (by omega)

theorem ntd_aux_foldl : ∀ (fuel n : Nat), n < fuel → ∀ a : Nat,
    (natToDigitsAux fuel n).foldl (fun a c => 10 * a + (c.toNat - 48)) a =
      a * 10 ^ (natToDigitsAux fuel n).length + n := by
  intro fuel
  induction fuel with
  | zero => intro n h; omega
  | succ fuel ih =>
    intro n hn a
    rw [natToDigitsAux]
    by_cases h10 : n < 10
    · rw [if_pos h10]
      simp only [List.foldl_cons, List.foldl_nil, List.length_singleton, pow_one]
      rw [(by decide : ∀ m < 10, (Char.ofNat (48 + m)).toNat - 48 = m) n h10]
      ring
    · rw [if_neg h10]
      rw [List.foldl_append, ih (n / 10) (by omega) a]
      simp only [List.foldl_cons, List.foldl_nil, List.length_append,
        List.length_singleton]
      rw [(by decide : ∀ m < 10, (Char.ofNat (48 + m)).toNat - 48 = m) (n % 10) (by omega)]
      rw [pow_succ]
      have : 10 * (a * (10 ^ (natToDigitsAux fuel (n / 10)).length) + n / 10) + n % 10 =
          a * (10 ^ (natToDigitsAux fuel (n / 10)).length * 10) + (10 * (n / 10) + n % 10) := by
        ring
      rw [this, Nat.div_add_mod]

theorem takeWhile_digits_append (l rest : List Char)
    (hl : ∀ c ∈ l, isDigitC c = true) (hr : numOkB rest = true) :
    (l ++ rest).takeWhile isDigitC = l := by
  induction l with
  | nil =>
    match rest with
    | [] => rfl
    | c :: t =>
      simp only [numOkB] at hr
      have hc : isDigitC c = false := by
        cases h : isDigitC c
        · rfl
        · rw [h] at hr; simp at hr
      simp [List.takeWhile_cons, hc]
  | cons d l ih =>
    simp [List.takeWhile_cons, hl d (List.mem_cons_self _ _),
      ih (fun c hc => hl c (List.mem_cons_of_mem _ hc))]

theorem numOkB_not_float (rest : List Char) (hr : numOkB rest = true) :
    floatNext rest = false := by
  match rest with
  | [] => rfl
  | c :: t =>
    simp only [numOkB] at hr
    simp only [floatNext]
    cases h1 : decide (c = '.') <;> cases h2 : decide (c = 'e') <;>
      cases h3 : decide (c = 'E') <;> simp_all

theorem parseNatNum_digits (n : Nat) (rest : List Char) (hr : numOkB rest = true) :
    parseNatNum (natToDigits n ++ rest) = some (n, rest) := by
  have hlt : n < n + 1 := Nat.lt_succ_self n
  have hdig : ∀ c ∈ natToDigits n, isDigitC c = true := ntd_aux_digits (n + 1) n hlt
  have hnil : natToDigits n ≠ [] := ntd_aux_ne_nil (n + 1) n hlt
  unfold parseNatNum
  rw [takeWhile_digits_append _ _ hdig hr]
  simp only [List.drop_left]
  rw [if_neg (by simpa [List.isEmpty_iff] using hnil)]
  have hzero : ¬(1 < (natToDigits n).length ∧
      (natToDigits n).head? = some (Char.ofNat 48)) := by
    by_cases h10 : n < 10
    · rw [show (natToDigits n : List Char) = natToDigitsAux (n + 1) n from rfl,
        natToDigitsAux, if_pos h10]
      simp
    · intro h
      exact ntd_aux_head (n + 1) n hlt (by omega) h.2
  rw [if_neg hzero, if_neg (by simp [numOkB_not_float rest hr])]
  have hval : (natToDigits n).foldl (fun a c => 10 * a + (c.toNat - 48)) 0 = n := by
    rw [show (natToDigits n : List Char) = natToDigitsAux (n + 1) n from rfl,
      ntd_aux_foldl (n + 1) n hlt 0]
    simp
  rw [hval]

theorem parseNumber_intToChars (i : Int) (rest : List Char) (hr : numOkB rest = true) :
    parseNumber (intToChars i ++ rest) = some (i, rest) := by
  by_cases hneg : i < 0
  · rw [show intToChars i = '-' :: natToDigits i.natAbs by simp [intToChars, hneg]]
    rw [List.cons_append, parseNumber, if_pos rfl, parseNatNum_digits _ _ hr]
    simp only [Option.map_some']
    refine congrArg some (Prod.ext ?_ rfl)
    simp only []
    omega
  · have hι : intToChars i = natToDigits i.toNat := by simp [intToChars, hneg]
    have hnil : natToDigits i.toNat ≠ [] :=
      ntd_aux_ne_nil (i.toNat + 1) i.toNat (Nat.lt_succ_self _)
    obtain ⟨c, t, hct⟩ := List.exists_cons_of_ne_nil hnil
    have hcd : isDigitC c = true := by
      apply ntd_aux_digits (i.toNat + 1) i.toNat (Nat.lt_succ_self _)
      show c ∈ natToDigits i.toNat
      rw [hct]
      exact List.mem_cons_self _ _
    rw [hι, hct, List.cons_append, parseNumber]
    rw [if_neg (by
      intro hc
      subst hc
      simp [isDigitC] at hcd)]
    rw [← List.cons_append, ← hct, parseNatNum_digits _ _ hr]
    simp only [Option.map_some']
    refine congrArg some (Prod.ext ?_ rfl)
    simp only []
    omega

/-! ## Toward C2: strings -/

theorem escapeChar_length_pos (c : Char) : 0 < (escapeChar c).length := by
  unfold escapeChar
  repeat' split
  all_goals simp [uEscape]

theorem psb_quote (f : Nat) (rest : List Char) :
    parseStringBody (f + 1) (quoteC :: rest) = some ([], rest) := by
  simp [parseStringBody]

theorem psb_esc (f : Nat) (e : Char) (rest : List Char) (ch : Char)
    (he : escDecode e = some ch) (hu : e ≠ 'u') :
    parseStringBody (f + 1) (backslashC :: e :: rest) =
      (parseStringBody f rest).map (fun p => (ch :: p.1, p.2)) := by
  have h1 : ¬(backslashC = quoteC) := by decide
  simp [parseStringBody, h1, hu, he]

theorem psb_raw (f : Nat) (c : Char) (rest : List Char)
    (h1 : c ≠ quoteC) (h2 : c ≠ backslashC) (h3 : ¬(c.toNat < 32)) :
    parseStringBody (f + 1) (c :: rest) =
      (parseStringBody f rest).map (fun p => (c :: p.1, p.2)) := by
  simp [parseStringBody, h1, h2, h3]

theorem parseHex4_uDigits (a b c d : Nat) (t : List Char)
    (ha : a < 16) (hb : b < 16) (hc : c < 16) (hd : d < 16) :
    parseHex4 (hexDigitC a :: hexDigitC b :: hexDigitC c :: hexDigitC d :: t) =
      some (4096 * a + 256 * b + 16 * c + d, t) := by
  have hval : ∀ m < 16, hexValC (hexDigitC m) = some m := by decide
  simp [parseHex4, hval a ha, hval b hb, hval c hc, hval d hd]

theorem psb_u (f n : Nat) (rest : List Char) (hn : n < 65536)
    (hlo : ¬(55296 ≤ n ∧ n ≤ 56319)) (hhi : ¬(56320 ≤ n ∧ n ≤ 57343)) :
    parseStringBody (f + 1) (uEscape n ++ rest) =
      (parseStringBody f rest).map (fun p => (Char.ofNat n :: p.1, p.2)) := by
  have h1 : ¬(backslashC = quoteC) := by decide
  rw [show uEscape n ++ rest = backslashC :: 'u' ::
    (hexDigitC (n / 4096 % 16) :: hexDigitC (n / 256 % 16) ::
     hexDigitC (n / 16 % 16) :: hexDigitC (n % 16) :: rest) by simp [uEscape]]
  rw [parseStringBody, if_neg h1, if_pos rfl, if_pos rfl,
    parseHex4_uDigits _ _ _ _ _ (by omega) (by omega) (by omega) (by omega)]
  have hrec : 4096 * (n / 4096 % 16) + 256 * (n / 256 % 16) +
      16 * (n / 16 % 16) + n % 16 = n := by omega
  rw [hrec]
  simp only [if_neg hlo, if_neg hhi]

theorem psb_surrogate (f n : Nat) (rest : List Char)
    (hn : 65536 ≤ n) (hn2 : n < 1114112) :
    parseStringBody (f + 1)
        ((uEscape (55296 + (n - 65536) / 1024) ++ uEscape (56320 + (n - 65536) % 1024)) ++ rest) =
      (parseStringBody f rest).map (fun p => (Char.ofNat n :: p.1, p.2)) := by
  have h1 : ¬(backslashC = quoteC) := by decide
  set hi := 55296 + (n - 65536) / 1024 with hhi
  set lo := 56320 + (n - 65536) % 1024 with hlo
  rw [show (uEscape hi ++ uEscape lo) ++ rest = backslashC :: 'u' ::
    (hexDigitC (hi / 4096 % 16) :: hexDigitC (hi / 256 % 16) ::
     hexDigitC (hi / 16 % 16) :: hexDigitC (hi % 16) ::
    (backslashC :: 'u' ::
     (hexDigitC (lo / 4096 % 16) :: hexDigitC (lo / 256 % 16) ::
      hexDigitC (lo / 16 % 16) :: hexDigitC (lo % 16) :: rest)))
    by simp [uEscape]]
  rw [parseStringBody, if_neg h1, if_pos rfl, if_pos rfl,
    parseHex4_uDigits _ _ _ _ _ (by omega) (by omega) (by omega) (by omega)]
  rw [show 4096 * (hi / 4096 % 16) + 256 * (hi / 256 % 16) +
      16 * (hi / 16 % 16) + hi % 16 = hi by omega]
  try dsimp only []
  rw [if_pos (show 55296 ≤ hi ∧ hi ≤ 56319 by omega)]
  try dsimp only []
  rw [if_pos (show backslashC = backslashC ∧ 'u' = 'u' from ⟨rfl, rfl⟩),
    parseHex4_uDigits _ _ _ _ _ (by omega) (by omega) (by omega) (by omega)]
  rw [show 4096 * (lo / 4096 % 16) + 256 * (lo / 256 % 16) +
      16 * (lo / 16 % 16) + lo % 16 = lo by omega]
  try dsimp only []
  rw [if_pos (show 56320 ≤ lo ∧ lo ≤ 57343 by omega)]
  rw [show 65536 + (hi - 55296) * 1024 + (lo - 56320) = n by omega]

theorem parseStringBody_escape :
    ∀ (s : List Char) (fuel : Nat) (rest : List Char),
      (escapeString s).length < fuel →
      parseStringBody fuel (escapeString s ++ (quoteC :: rest)) = some (s, rest) := by
  intro s
  induction s with
  | nil =>
    intro fuel rest hf
    obtain ⟨f, rfl⟩ : ∃ f, fuel = f + 1 := ⟨fuel - 1, by omega⟩
    rw [show escapeString [] ++ (quoteC :: rest) = quoteC :: rest from rfl, psb_quote]
  | cons c s ih =>
    intro fuel rest hf
    have hv := char_toNat_valid c
    rw [show escapeString (c :: s) = escapeChar c ++ escapeString s from rfl] at hf ⊢
    rw [List.length_append] at hf
    have hpos := escapeChar_length_pos c
    obtain ⟨f, rfl⟩ : ∃ f, fuel = f + 1 := ⟨fuel - 1, by omega⟩
    have hfs : (escapeString s).length < f := by omega
    rw [List.append_assoc]
    by_cases hq : c = quoteC
    · subst hq
      rw [show escapeChar quoteC = [backslashC, quoteC] from rfl]
      rw [show ([backslashC, quoteC] : List Char) ++ (escapeString s ++ (quoteC :: rest)) =
        backslashC :: quoteC :: (escapeString s ++ (quoteC :: rest)) from rfl]
      rw [psb_esc f quoteC _ quoteC (by decide) (by decide), ih f rest hfs]
      rfl
    · by_cases hb : c = backslashC
      · subst hb
        rw [show escapeChar backslashC = [backslashC, backslashC] from rfl]
        rw [show ([backslashC, backslashC] : List Char) ++ (escapeString s ++ (quoteC :: rest)) =
          backslashC :: backslashC :: (escapeString s ++ (quoteC :: rest)) from rfl]
        rw [psb_esc f backslashC _ backslashC (by decide) (by decide), ih f rest hfs]
        rfl
      · by_cases hn : c = nlC
        · subst hn
          rw [show escapeChar nlC = [backslashC, 'n'] from rfl]
          rw [show ([backslashC, 'n'] : List Char) ++ (escapeString s ++ (quoteC :: rest)) =
            backslashC :: 'n' :: (escapeString s ++ (quoteC :: rest)) from rfl]
          rw [psb_esc f 'n' _ nlC (by decide) (by decide), ih f rest hfs]
          rfl
        · by_cases hcr : c = crC
          · subst hcr
            rw [show escapeChar crC = [backslashC, 'r'] from rfl]
            rw [show ([backslashC, 'r'] : List Char) ++ (escapeString s ++ (quoteC :: rest)) =
              backslashC :: 'r' :: (escapeString s ++ (quoteC :: rest)) from rfl]
            rw [psb_esc f 'r' _ crC (by decide) (by decide), ih f rest hfs]
            rfl
          · by_cases hT : c = tabC
            · subst hT
              rw [show escapeChar tabC = [backslashC, 't'] from rfl]
              rw [show ([backslashC, 't'] : List Char) ++ (escapeString s ++ (quoteC :: rest)) =
                backslashC :: 't' :: (escapeString s ++ (quoteC :: rest)) from rfl]
              rw [psb_esc f 't' _ tabC (by decide) (by decide), ih f rest hfs]
              rfl
            · by_cases hB : c = bsC
              · subst hB
                rw [show escapeChar bsC = [backslashC, 'b'] from rfl]
                rw [show ([backslashC, 'b'] : List Char) ++ (escapeString s ++ (quoteC :: rest)) =
                  backslashC :: 'b' :: (escapeString s ++ (quoteC :: rest)) from rfl]
                rw [psb_esc f 'b' _ bsC (by decide) (by decide), ih f rest hfs]
                rfl
              · by_cases hF : c = ffC
                · subst hF
                  rw [show escapeChar ffC = [backslashC, 'f'] from rfl]
                  rw [show ([backslashC, 'f'] : List Char) ++ (escapeString s ++ (quoteC :: rest)) =
                    backslashC :: 'f' :: (escapeString s ++ (quoteC :: rest)) from rfl]
                  rw [psb_esc f 'f' _ ffC (by decide) (by decide), ih f rest hfs]
                  rfl
                · by_cases hctl : c.toNat < 32 ∨ 127 ≤ c.toNat
                  · by_cases hbmp : c.toNat < 65536
                    · rw [show escapeChar c = uEscape c.toNat by
                        rw [escapeChar, if_neg hq, if_neg hb, if_neg hn, if_neg hcr,
                          if_neg hT, if_neg hB, if_neg hF, if_pos hctl, if_pos hbmp]]
                      rw [psb_u f c.toNat _ hbmp (by omega) (by omega), ih f rest hfs]
                      simp [Char.ofNat_toNat]
                    · rw [show escapeChar c =
                        uEscape (55296 + (c.toNat - 65536) / 1024) ++
                        uEscape (56320 + (c.toNat - 65536) % 1024) by
                        rw [escapeChar, if_neg hq, if_neg hb, if_neg hn, if_neg hcr,
                          if_neg hT, if_neg hB, if_neg hF, if_pos hctl, if_neg hbmp]]
                      rw [psb_surrogate f c.toNat _ (by omega) (by omega), ih f rest hfs]
                      simp [Char.ofNat_toNat]
                  · rw [show escapeChar c = [c] by
                      rw [escapeChar, if_neg hq, if_neg hb, if_neg hn, if_neg hcr,
                        if_neg hT, if_neg hB, if_neg hF, if_neg hctl]]
                    rw [show ([c] : List Char) ++ (escapeString s ++ (quoteC :: rest)) =
                      c :: (escapeString s ++ (quoteC :: rest)) from rfl]
                    rw [psb_raw f c _ hq hb (by omega), ih f rest hfs]
                    simp

/-! ## Toward C2: whitespace, value heads, dict semantics -/

/-- The characters that can begin a `dumps` output. -/
def headCat (c : Char) : Prop :=
  c = 'n' ∨ c = 't' ∨ c = 'f' ∨ c = quoteC ∨ c = '[' ∨ c = lbraceC ∨
    c = '-' ∨ isDigitC c = true

theorem skipWs_not {c : Char} (t : List Char) (h : isWsC c = false) :
    skipWs (c :: t) = c :: t := by
  simp [skipWs, h]

theorem skipWs_space (t : List Char) : skipWs (' ' :: t) = skipWs t := by
  simp [skipWs, isWsC]

theorem headCat_facts {c : Char} (h : headCat c) :
    isWsC c = false ∧ ¬(c = ']') ∧ ¬(c = rbraceC) := by
  have hws : ∀ d : Char, isDigitC d = true → isWsC d = false := by
    intro d hd
    cases hw : isWsC d
    · rfl
    · exfalso
      have h32 : 48 ≤ d.toNat ∧ d.toNat ≤ 57 := by
        simpa [isDigitC, Bool.and_eq_true, decide_eq_true_eq] using hd
      rcases (by simpa [isWsC, Bool.or_eq_true, decide_eq_true_eq] using hw :
        ((d = ' ' ∨ d = tabC) ∨ d = nlC) ∨ d = crC) with ((h' | h') | h') | h'
      all_goals rw [h'] at h32
      all_goals revert h32
      all_goals decide
  rcases h with h | h | h | h | h | h | h | h
  all_goals first
    | (subst h; exact ⟨by decide, by decide, by decide⟩)
    | (exact ⟨hws c h,
        fun heq => absurd (heq ▸ h) (by decide),
        fun heq => absurd (heq ▸ h) (by decide)⟩)

theorem numHead_not_kw {c : Char} (h : c = '-' ∨ isDigitC c = true) :
    ¬(c = 'n') ∧ ¬(c = 't') ∧ ¬(c = 'f') ∧ ¬(c = quoteC) ∧ ¬(c = '[') ∧
      ¬(c = lbraceC) := by
  rcases h with h | h
  · subst h
    exact ⟨by decide, by decide, by decide, by decide, by decide, by decide⟩
  · exact ⟨fun heq => absurd (heq ▸ h) (by decide),
      fun heq => absurd (heq ▸ h) (by decide),
      fun heq => absurd (heq ▸ h) (by decide),
      fun heq => absurd (heq ▸ h) (by decide),
      fun heq => absurd (heq ▸ h) (by decide),
      fun heq => absurd (heq ▸ h) (by decide)⟩

theorem intToChars_head (i : Int) :
    ∃ c t, intToChars i = c :: t ∧ (c = '-' ∨ isDigitC c = true) := by
  by_cases hneg : i < 0
  · exact ⟨'-', natToDigits i.natAbs, by simp [intToChars, hneg], Or.inl rfl⟩
  · have hnil : natToDigits i.toNat ≠ [] :=
      ntd_aux_ne_nil (i.toNat + 1) i.toNat (Nat.lt_succ_self _)
    obtain ⟨c, t, hct⟩ := List.exists_cons_of_ne_nil hnil
    refine ⟨c, t, by simp [intToChars, hneg, hct], Or.inr ?_⟩
    apply ntd_aux_digits (i.toNat + 1) i.toNat (Nat.lt_succ_self _)
    show c ∈ natToDigits i.toNat
    rw [hct]
    exact List.mem_cons_self _ _

theorem dumps_head : ∀ j : Json, ∃ c t, dumps j = c :: t ∧ headCat c := by
  intro j
  match j with
  | .null => exact ⟨'n', _, rfl, Or.inl rfl⟩
  | .bool true => exact ⟨'t', _, rfl, Or.inr (Or.inl rfl)⟩
  | .bool false => exact ⟨'f', _, rfl, Or.inr (Or.inr (Or.inl rfl))⟩
  | .int n =>
    obtain ⟨c, t, hct, hc⟩ := intToChars_head n
    exact ⟨c, t, hct, by
      rcases hc with h | h
      · exact Or.inr (Or.inr (Or.inr (Or.inr (Or.inr (Or.inr (Or.inl h))))))
      · exact Or.inr (Or.inr (Or.inr (Or.inr (Or.inr (Or.inr (Or.inr h))))))⟩
  | .str s => exact ⟨quoteC, _, rfl, Or.inr (Or.inr (Or.inr (Or.inl rfl)))⟩
  | .arr xs => exact ⟨'[', _, rfl, Or.inr (Or.inr (Or.inr (Or.inr (Or.inl rfl))))⟩
  | .obj kvs =>
    exact ⟨lbraceC, _, rfl, Or.inr (Or.inr (Or.inr (Or.inr (Or.inr (Or.inl rfl)))))⟩

theorem dumps_length_pos (j : Json) : 1 ≤ (dumps j).length := by
  obtain ⟨c, t, hct, _⟩ := dumps_head j
  rw [hct]
  simp

theorem skipWs_dumps (j : Json) (t : List Char) :
    skipWs (dumps j ++ t) = dumps j ++ t := by
  obtain ⟨c, r, hct, hcat⟩ := dumps_head j
  rw [hct, List.cons_append, skipWs_not _ (headCat_facts hcat).1]

/-! Dict semantics: `dict(pairs)` is the identity on duplicate-free pair
lists. -/

theorem jlookup_append (l1 l2 : List (List Char × Json)) (k : List Char) :
    jlookup (l1 ++ l2) k = ((jlookup l1 k).rec (jlookup l2 k) (fun v => some v)) := by
  induction l1 with
  | nil => simp [jlookup]
  | cons p l1 ih =>
    obtain ⟨k', v⟩ := p
    by_cases h : k' = k
    · simp [jlookup, h]
    · simp [jlookup, h, ih]

theorem objInsert_fresh (acc : List (List Char × Json)) (k : List Char) (v : Json)
    (h : jlookup acc k = none) : objInsert acc k v = acc ++ [(k, v)] := by
  induction acc with
  | nil => rfl
  | cons p acc ih =>
    obtain ⟨k', v'⟩ := p
    rw [jlookup] at h
    by_cases hk : k' = k
    · rw [if_pos hk] at h
      exact absurd h (by simp)
    · rw [if_neg hk] at h
      rw [objInsert, if_neg hk, ih h]
      rfl

theorem jlookup_isSome_of_mem (l : List (List Char × Json)) (p : List Char × Json)
    (h : p ∈ l) : (jlookup l p.1).isSome = true := by
  induction l with
  | nil => simp at h
  | cons q l ih =>
    obtain ⟨k', v'⟩ := q
    rw [jlookup]
    by_cases hk : k' = p.1
    · rw [if_pos hk]; rfl
    · rw [if_neg hk]
      rcases List.mem_cons.mp h with h | h
      · exact absurd (congrArg Prod.fst h.symm) hk
      · exact ih h

theorem foldl_objInsert_fresh :
    ∀ (kvs acc : List (List Char × Json)),
      nodupKeys kvs = true →
      (∀ p ∈ kvs, jlookup acc p.1 = none) →
      kvs.foldl (fun acc p => objInsert acc p.1 p.2) acc = acc ++ kvs := by
  intro kvs
  induction kvs with
  | nil => intro acc _ _; simp
  | cons p kvs ih =>
    intro acc hnd hfresh
    obtain ⟨k, v⟩ := p
    rw [nodupKeys, Bool.and_eq_true] at hnd
    obtain ⟨hnd1, hnd2⟩ := hnd
    have hkfree : (jlookup kvs k).isSome = false := by
      cases hx : hasKey kvs k
      · rw [← hx]; rfl
      · rw [hx] at hnd1; exact absurd hnd1 (by decide)
    rw [List.foldl_cons]
    rw [show objInsert acc (k, v).1 (k, v).2 = acc ++ [(k, v)] from
      objInsert_fresh acc k v (hfresh (k, v) (List.mem_cons_self _ _))]
    rw [ih (acc ++ [(k, v)]) hnd2 ?_]
    · simp
    · intro q hq
      rw [jlookup_append]
      rw [hfresh q (List.mem_cons_of_mem _ hq)]
      show jlookup [(k, v)] q.1 = none
      rw [jlookup, if_neg, jlookup]
      intro hkq
      have h1 : (jlookup kvs q.1).isSome = true := jlookup_isSome_of_mem kvs q hq
      rw [hkq] at hkfree
      rw [h1] at hkfree
      exact absurd hkfree (by decide)

theorem dictOf_nodup (kvs : List (List Char × Json)) (h : nodupKeys kvs = true) :
    dictOf kvs = kvs := by
  rw [dictOf, foldl_objInsert_fresh kvs [] h (fun p _ => rfl)]
  rfl

/-! ## Toward C2: the parser fuel bound -/

theorem Fm_pos : ∀ j : Json, 1 ≤ Fm j := by
  intro j
  match j with
  | .null | .bool _ | .int _ | .str _ => exact le_refl 1
  | .arr xs => show 1 ≤ 1 + FmElems xs; omega
  | .obj kvs => show 1 ≤ 1 + FmMembers kvs; omega

theorem fmle_pack : ∀ n : Nat,
    (∀ j, Fm j ≤ n → Fm j ≤ 2 * (dumps j).length) ∧
    (∀ xs, FmElems xs ≤ n → xs ≠ [] → FmElems xs ≤ 2 * (dumpsList xs).length + 1) ∧
    (∀ kvs, FmMembers kvs ≤ n → kvs ≠ [] →
      FmMembers kvs ≤ 2 * (dumpsMembers kvs).length + 1) := by
  intro n
  induction n with
  | zero =>
    refine ⟨fun j hj => absurd hj (by have := Fm_pos j; omega), fun xs hx hne => ?_,
      fun kvs hk hne => ?_⟩
    · match xs, hne with
      | x :: xs, _ =>
        rw [show FmElems (x :: xs) = 1 + Fm x + FmElems xs from rfl] at hx
        omega
    · match kvs, hne with
      | (k, v) :: kvs, _ =>
        rw [show FmMembers ((k, v) :: kvs) = 1 + Fm v + FmMembers kvs from rfl] at hk
        omega
  | succ n ih =>
    obtain ⟨ihV, ihE, ihM⟩ := ih
    refine ⟨fun j hj => ?_, fun xs hx hne => ?_, fun kvs hk hne => ?_⟩
    · match j with
      | .null => decide
      | .bool true => decide
      | .bool false => decide
      | .int m =>
        have := dumps_length_pos (.int m)
        show 1 ≤ 2 * (dumps (.int m)).length
        omega
      | .str s =>
        show 1 ≤ 2 * (dumps (.str s)).length
        have := dumps_length_pos (.str s)
        omega
      | .arr [] => decide
      | .arr (x :: xs) =>
        rw [show Fm (.arr (x :: xs)) = 1 + FmElems (x :: xs) from rfl] at hj ⊢
        have hb := ihE (x :: xs) (by omega) (by simp)
        rw [show (dumps (.arr (x :: xs))).length = (dumpsList (x :: xs)).length + 2 by
          rw [show dumps (.arr (x :: xs)) = '[' :: (dumpsList (x :: xs) ++ [']']) from rfl]
          simp]
        omega
      | .obj [] => decide
      | .obj (p :: kvs) =>
        rw [show Fm (.obj (p :: kvs)) = 1 + FmMembers (p :: kvs) from rfl] at hj ⊢
        have hb := ihM (p :: kvs) (by omega) (by simp)
        rw [show (dumps (.obj (p :: kvs))).length = (dumpsMembers (p :: kvs)).length + 2 by
          rw [show dumps (.obj (p :: kvs)) =
            lbraceC :: (dumpsMembers (p :: kvs) ++ [rbraceC]) from rfl]
          simp]
        omega
    · match xs, hne with
      | [x], _ =>
        rw [show FmElems [x] = 1 + Fm x + FmElems [] from rfl,
          show FmElems ([] : List Json) = 0 from rfl] at hx ⊢
        have hb := ihV x (by omega)
        rw [show dumpsList [x] = dumps x from rfl]
        omega
      | x :: y :: xs, _ =>
        rw [show FmElems (x :: y :: xs) = 1 + Fm x + FmElems (y :: xs) from rfl] at hx ⊢
        have hb1 := ihV x (by omega)
        have hb2 := ihE (y :: xs) (by omega) (by simp)
        rw [show dumpsList (x :: y :: xs) = dumps x ++ ',' :: ' ' :: dumpsList (y :: xs)
          from rfl]
        simp only [List.length_append, List.length_cons]
        omega
    · match kvs, hne with
      | [(k, v)], _ =>
        rw [show FmMembers [(k, v)] = 1 + Fm v + FmMembers [] from rfl,
          show FmMembers ([] : List (List Char × Json)) = 0 from rfl] at hk ⊢
        have hb := ihV v (by omega)
        rw [show dumpsMembers [(k, v)] =
          quoteC :: (escapeString k ++ quoteC :: ':' :: ' ' :: dumps v) from rfl]
        simp only [List.length_cons, List.length_append]
        omega
      | (k, v) :: p :: kvs, _ =>
        rw [show FmMembers ((k, v) :: p :: kvs) = 1 + Fm v + FmMembers (p :: kvs)
          from rfl] at hk ⊢
        have hb1 := ihV v (by omega)
        have hb2 := ihM (p :: kvs) (by omega) (by simp)
        rw [show dumpsMembers ((k, v) :: p :: kvs) =
          quoteC :: (escapeString k ++ quoteC :: ':' :: ' ' :: dumps v) ++
            ',' :: ' ' :: dumpsMembers (p :: kvs) from rfl]
        simp only [List.length_append, List.length_cons]
        omega

theorem Fm_le_dumps (j : Json) : Fm j ≤ 2 * (dumps j).length :=
  (fmle_pack (Fm j)).1 j (le_refl _)

/-! ## Toward C2: single-step reductions of `parseValue` -/

theorem pv_null (f : Nat) (r : List Char) :
    parseValue (f + 1) ('n' :: 'u' :: 'l' :: 'l' :: r) = some (.null, r) := rfl

theorem pv_true (f : Nat) (r : List Char) :
    parseValue (f + 1) ('t' :: 'r' :: 'u' :: 'e' :: r) = some (.bool true, r) := rfl

theorem pv_false (f : Nat) (r : List Char) :
    parseValue (f + 1) ('f' :: 'a' :: 'l' :: 's' :: 'e' :: r) = some (.bool false, r) := rfl

theorem pv_quote (f : Nat) (r : List Char) :
    parseValue (f + 1) (quoteC :: r) =
      (parseStringBody r.length r).map (fun p => (.str p.1, p.2)) := rfl

theorem pv_lbrack (f : Nat) (r : List Char) :
    parseValue (f + 1) ('[' :: r) =
      (match skipWs r with
       | [] => none
       | c1 :: r1 =>
         if c1 = ']' then some (.arr [], r1)
         else (parseElems f (c1 :: r1)).map (fun p => (.arr p.1, p.2))) := rfl

theorem pv_lbrace (f : Nat) (r : List Char) :
    parseValue (f + 1) (lbraceC :: r) =
      (match skipWs r with
       | [] => none
       | c1 :: r1 =>
         if c1 = rbraceC then some (.obj [], r1)
         else (parseMembers f (c1 :: r1)).map (fun p => (.obj (dictOf p.1), p.2))) := rfl

theorem pv_num (f : Nat) (c : Char) (r : List Char) (h : c = '-' ∨ isDigitC c = true) :
    parseValue (f + 1) (c :: r) =
      (parseNumber (c :: r)).map (fun p => (.int p.1, p.2)) := by
  obtain ⟨h1, h2, h3, h4, h5, h6⟩ := numHead_not_kw h
  rw [parseValue, if_neg h1, if_neg h2, if_neg h3, if_neg h4, if_neg h5, if_neg h6]

theorem dumpsList_head (xs : List Json) (hne : xs ≠ []) :
    ∃ c t, dumpsList xs = c :: t ∧ headCat c := by
  match xs, hne with
  | [x], _ =>
    obtain ⟨c, t, hct, hcat⟩ := dumps_head x
    exact ⟨c, t, by rw [show dumpsList [x] = dumps x from rfl, hct], hcat⟩
  | x :: y :: ys, _ =>
    obtain ⟨c, t, hct, hcat⟩ := dumps_head x
    exact ⟨c, t ++ ',' :: ' ' :: dumpsList (y :: ys), by
      rw [show dumpsList (x :: y :: ys) = dumps x ++ ',' :: ' ' :: dumpsList (y :: ys)
        from rfl, hct, List.cons_append], hcat⟩

theorem skipWs_dumpsList (xs : List Json) (hne : xs ≠ []) (t : List Char) :
    skipWs (dumpsList xs ++ t) = dumpsList xs ++ t := by
  obtain ⟨c, r, hct, hcat⟩ := dumpsList_head xs hne
  rw [hct, List.cons_append, skipWs_not _ (headCat_facts hcat).1]

theorem skipWs_dumpsMembers (kvs : List (List Char × Json)) (hne : kvs ≠ [])
    (t : List Char) :
    skipWs (dumpsMembers kvs ++ t) = dumpsMembers kvs ++ t := by
  match kvs, hne with
  | [(k, v)], _ =>
    rw [show dumpsMembers [(k, v)] =
      quoteC :: (escapeString k ++ quoteC :: ':' :: ' ' :: dumps v) from rfl,
      List.cons_append, skipWs_not _ (by decide)]
  | (k, v) :: p :: ps, _ =>
    rw [show dumpsMembers ((k, v) :: p :: ps) =
      quoteC :: (escapeString k ++ quoteC :: ':' :: ' ' :: dumps v) ++
        ',' :: ' ' :: dumpsMembers (p :: ps) from rfl,
      List.cons_append, List.cons_append, skipWs_not _ (by decide)]

theorem numOkB_comma (r : List Char) : numOkB (',' :: r) = true := rfl

theorem numOkB_close (r : List Char) : numOkB (']' :: r) = true := rfl

theorem numOkB_rbrace (r : List Char) : numOkB (rbraceC :: r) = true := rfl

theorem FmElems_pos (xs : List Json) (h : xs ≠ []) : 1 ≤ FmElems xs := by
  match xs, h with
  | x :: xs, _ =>
    rw [show FmElems (x :: xs) = 1 + Fm x + FmElems xs from rfl]
    omega

theorem FmMembers_pos (kvs : List (List Char × Json)) (h : kvs ≠ []) :
    1 ≤ FmMembers kvs := by
  match kvs, h with
  | (k, v) :: kvs, _ =>
    rw [show FmMembers ((k, v) :: kvs) = 1 + Fm v + FmMembers kvs from rfl]
    omega

/-- The central lemma behind C2: re-parsing a serialized value consumes
exactly the serialization and rebuilds the value (for well-formed values,
with enough fuel, at any delimiter boundary). -/
theorem parse_dumps_pack : ∀ n : Nat,
    (∀ j : Json, Fm j ≤ n → ∀ (fuel : Nat) (rest : List Char),
      jwf j = true → Fm j ≤ fuel → numOkB rest = true →
      parseValue fuel (dumps j ++ rest) = some (j, rest)) ∧
    (∀ xs : List Json, FmElems xs ≤ n → xs ≠ [] → ∀ (fuel : Nat) (rest : List Char),
      jwfList xs = true → FmElems xs ≤ fuel →
      parseElems fuel (dumpsList xs ++ (']' :: rest)) = some (xs, rest)) ∧
    (∀ kvs : List (List Char × Json), FmMembers kvs ≤ n → kvs ≠ [] →
      ∀ (fuel : Nat) (rest : List Char),
      jwfPairs kvs = true → FmMembers kvs ≤ fuel →
      parseMembers fuel (dumpsMembers kvs ++ (rbraceC :: rest)) = some (kvs, rest)) := by
  intro n
  induction n with
  | zero =>
    exact ⟨fun j hj => absurd hj (by have := Fm_pos j; omega),
      fun xs hx hne => absurd hx (by have := FmElems_pos xs hne; omega),
      fun kvs hk hne => absurd hk (by have := FmMembers_pos kvs hne; omega)⟩
  | succ n ih =>
    obtain ⟨ihV, ihE, ihM⟩ := ih
    refine ⟨fun j hj fuel rest hw hf hr => ?_, fun xs hx hne fuel rest hw hf => ?_,
      fun kvs hk hne fuel rest hw hf => ?_⟩
    · obtain ⟨f, rfl⟩ : ∃ f, fuel = f + 1 := ⟨fuel - 1, by have := Fm_pos j; omega⟩
      match j with
      | .null =>
        rw [show dumps Json.null ++ rest = 'n' :: 'u' :: 'l' :: 'l' :: rest from rfl,
          pv_null]
      | .bool true =>
        rw [show dumps (Json.bool true) ++ rest = 't' :: 'r' :: 'u' :: 'e' :: rest
          from rfl, pv_true]
      | .bool false =>
        rw [show dumps (Json.bool false) ++ rest = 'f' :: 'a' :: 'l' :: 's' :: 'e' :: rest
          from rfl, pv_false]
      | .int m =>
        obtain ⟨c, t, hct, hc⟩ := intToChars_head m
        rw [show dumps (Json.int m) = intToChars m from rfl, hct, List.cons_append,
          pv_num f c _ hc, ← List.cons_append, ← hct,
          parseNumber_intToChars m rest hr]
        rfl
      | .str s =>
        rw [show dumps (Json.str s) ++ rest =
            quoteC :: (escapeString s ++ (quoteC :: rest)) by
          rw [show dumps (Json.str s) = quoteC :: (escapeString s ++ [quoteC]) from rfl]
          simp]
        rw [pv_quote, parseStringBody_escape s _ rest (by simp)]
        rfl
      | .arr [] =>
        rw [show dumps (Json.arr []) ++ rest = '[' :: (']' :: rest) from rfl, pv_lbrack,
          skipWs_not _ (by decide)]
        try dsimp only []
        rw [if_pos rfl]
      | .arr (x :: xs) =>
        rw [show dumps (Json.arr (x :: xs)) ++ rest =
            '[' :: (dumpsList (x :: xs) ++ (']' :: rest)) by
          rw [show dumps (Json.arr (x :: xs)) = '[' :: (dumpsList (x :: xs) ++ [']'])
            from rfl]
          simp]
        rw [pv_lbrack]
        obtain ⟨c, t, hct, hcat⟩ := dumpsList_head (x :: xs) (by simp)
        rw [hct, List.cons_append, skipWs_not _ (headCat_facts hcat).1]
        try dsimp only []
        rw [if_neg (headCat_facts hcat).2.1, ← List.cons_append, ← hct]
        rw [show Fm (Json.arr (x :: xs)) = 1 + FmElems (x :: xs) from rfl] at hj hf
        rw [ihE (x :: xs) (by omega) (by simp) f rest
          (by rw [show jwf (Json.arr (x :: xs)) = jwfList (x :: xs) from rfl] at hw
              exact hw)
          (by omega)]
        rfl
      | .obj [] =>
        rw [show dumps (Json.obj []) ++ rest = lbraceC :: (rbraceC :: rest) from rfl,
          pv_lbrace, skipWs_not _ (by decide)]
        try dsimp only []
        rw [if_pos rfl]
      | .obj (p :: kvs) =>
        rw [show dumps (Json.obj (p :: kvs)) ++ rest =
            lbraceC :: (dumpsMembers (p :: kvs) ++ (rbraceC :: rest)) by
          rw [show dumps (Json.obj (p :: kvs)) =
            lbraceC :: (dumpsMembers (p :: kvs) ++ [rbraceC]) from rfl]
          simp]
        rw [pv_lbrace]
        have hdm : ∃ t, dumpsMembers (p :: kvs) ++ (rbraceC :: rest) = quoteC :: t := by
          match p, kvs with
          | (k, v), [] =>
            exact ⟨_, by
              rw [show dumpsMembers [(k, v)] =
                quoteC :: (escapeString k ++ quoteC :: ':' :: ' ' :: dumps v) from rfl,
                List.cons_append]⟩
          | (k, v), q :: qs =>
            exact ⟨_, by
              rw [show dumpsMembers ((k, v) :: q :: qs) =
                quoteC :: (escapeString k ++ quoteC :: ':' :: ' ' :: dumps v) ++
                  ',' :: ' ' :: dumpsMembers (q :: qs) from rfl,
                List.cons_append, List.cons_append]⟩
        obtain ⟨t, hdm⟩ := hdm
        rw [hdm, skipWs_not _ (by decide)]
        try dsimp only []
        rw [if_neg (by decide), ← hdm]
        rw [show jwf (Json.obj (p :: kvs)) =
          (nodupKeys (p :: kvs) && jwfPairs (p :: kvs)) from rfl, Bool.and_eq_true] at hw
        rw [show Fm (Json.obj (p :: kvs)) = 1 + FmMembers (p :: kvs) from rfl] at hj hf
        rw [ihM (p :: kvs) (by omega) (by simp) f rest hw.2 (by omega)]
        simp only [Option.map_some']
        rw [dictOf_nodup (p :: kvs) hw.1]
    · obtain ⟨g, rfl⟩ : ∃ g, fuel = g + 1 :=
        ⟨fuel - 1, by have := FmElems_pos xs hne; omega⟩
      match xs, hne with
      | [x], _ =>
        rw [show jwfList [x] = (jwf x && jwfList []) from rfl, Bool.and_eq_true] at hw
        rw [show FmElems [x] = 1 + Fm x + FmElems [] from rfl,
          show FmElems ([] : List Json) = 0 from rfl] at hx hf
        rw [show dumpsList [x] = dumps x from rfl, parseElems,
          ihV x (by omega) g (']' :: rest) hw.1 (by omega) rfl]
        try dsimp only []
        rw [skipWs_not _ (by decide)]
        try dsimp only []
        rw [if_pos rfl]
      | x :: y :: ys, _ =>
        rw [show jwfList (x :: y :: ys) = (jwf x && jwfList (y :: ys)) from rfl,
          Bool.and_eq_true] at hw
        rw [show FmElems (x :: y :: ys) = 1 + Fm x + FmElems (y :: ys) from rfl] at hx hf
        rw [show dumpsList (x :: y :: ys) ++ (']' :: rest) =
            dumps x ++ (',' :: ' ' :: (dumpsList (y :: ys) ++ (']' :: rest))) by
          rw [show dumpsList (x :: y :: ys) =
            dumps x ++ ',' :: ' ' :: dumpsList (y :: ys) from rfl]
          simp]
        rw [parseElems, ihV x (by omega) g _ hw.1 (by omega) (numOkB_comma _)]
        try dsimp only []
        rw [skipWs_not _ (by decide)]
        try dsimp only []
        rw [if_neg (by decide), if_pos rfl, skipWs_space,
          skipWs_dumpsList (y :: ys) (by simp) _,
          ihE (y :: ys) (by omega) (by simp) g rest hw.2 (by omega)]
        rfl
    · obtain ⟨g, rfl⟩ : ∃ g, fuel = g + 1 :=
        ⟨fuel - 1, by have := FmMembers_pos kvs hne; omega⟩
      match kvs, hne with
      | [(k, v)], _ =>
        rw [show jwfPairs [(k, v)] = (jwf v && jwfPairs []) from rfl,
          Bool.and_eq_true] at hw
        rw [show FmMembers [(k, v)] = 1 + Fm v + FmMembers [] from rfl,
          show FmMembers ([] : List (List Char × Json)) = 0 from rfl] at hk hf
        rw [show dumpsMembers [(k, v)] ++ (rbraceC :: rest) =
            quoteC :: (escapeString k ++
              (quoteC :: (':' :: ' ' :: (dumps v ++ (rbraceC :: rest))))) by
          rw [show dumpsMembers [(k, v)] =
            quoteC :: (escapeString k ++ quoteC :: ':' :: ' ' :: dumps v) from rfl]
          simp]
        rw [parseMembers]
        try dsimp only []
        rw [if_pos rfl, parseStringBody_escape k _ _ (by simp)]
        try dsimp only []
        rw [skipWs_not _ (by decide)]
        try dsimp only []
        rw [if_pos rfl, skipWs_space, skipWs_dumps v _,
          ihV v (by omega) g _ hw.1 (by omega) (numOkB_rbrace _)]
        try dsimp only []
        rw [skipWs_not _ (by decide)]
        try dsimp only []
        rw [if_pos rfl]
      | (k, v) :: q :: qs, _ =>
        rw [show jwfPairs ((k, v) :: q :: qs) = (jwf v && jwfPairs (q :: qs)) from rfl,
          Bool.and_eq_true] at hw
        rw [show FmMembers ((k, v) :: q :: qs) = 1 + Fm v + FmMembers (q :: qs)
          from rfl] at hk hf
        rw [show dumpsMembers ((k, v) :: q :: qs) ++ (rbraceC :: rest) =
            quoteC :: (escapeString k ++
              (quoteC :: (':' :: ' ' :: (dumps v ++
                (',' :: ' ' :: (dumpsMembers (q :: qs) ++ (rbraceC :: rest))))))) by
          rw [show dumpsMembers ((k, v) :: q :: qs) =
            quoteC :: (escapeString k ++ quoteC :: ':' :: ' ' :: dumps v) ++
              ',' :: ' ' :: dumpsMembers (q :: qs) from rfl]
          simp]
        rw [parseMembers]
        try dsimp only []
        rw [if_pos rfl, parseStringBody_escape k _ _ (by simp)]
        try dsimp only []
        rw [skipWs_not _ (by decide)]
        try dsimp only []
        rw [if_pos rfl, skipWs_space, skipWs_dumps v _,
          ihV v (by omega) g _ hw.1 (by omega) (numOkB_comma _)]
        try dsimp only []
        rw [skipWs_not _ (by decide)]
        try dsimp only []
        rw [if_neg (by decide), if_pos rfl, skipWs_space,
          skipWs_dumpsMembers (q :: qs) (by simp) _,
          ihM (q :: qs) (by omega) (by simp) g rest hw.2 (by omega)]
        rfl

/-- `json.loads` inverts `json.dumps` on any value a Python object graph can
denote. -/
theorem loads_dumps (j : Json) (hw : jwf j = true) : loads (dumps j) = some j := by
  unfold loads
  rw [show skipWs (dumps j) = dumps j by simpa using skipWs_dumps j []]
  have hfm : Fm j ≤ 2 * (dumps j).length + 1 := by have := Fm_le_dumps j; omega
  have hp := (parse_dumps_pack (Fm j)).1 j (le_refl _)
    (2 * (dumps j).length + 1) [] hw hfm rfl
  rw [show dumps j ++ ([] : List Char) = dumps j by simp] at hp
  dsimp only []
  rw [hp]
  try dsimp only []
  rw [if_pos (show skipWs [] = [] from rfl)]

/-- C2.  For every opcode in `{0..4}` and every JSON value (that a Python
`dict`-based object graph can denote, within the 32-bit payload limit of the
frame header), decoding the bytes produced by `encode_message` yields
exactly the same opcode and a deeply equal value. -/
theorem decode_encode_roundtrip (op : Nat) (j : Json)
    (hop : op ≤ 4) (hw : jwf j = true)
    (hlen : (utf8Encode (dumps j)).length < 4294967296) :
    ∃ bs, encode_message op j = some bs ∧ decode_message bs = some (op, j) := by
  refine ⟨(le32 op ++ le32 (utf8Encode (dumps j)).length) ++ utf8Encode (dumps j),
    ?_, ?_⟩
  · simp [encode_message, structPackII, show op < 4294967296 by omega, hlen]
  · unfold decode_message
    rw [take8_header, drop8_header, structUnpackII_le32 _ _ (by omega) hlen]
    try dsimp only []
    rw [List.take_length, utf8Decode_encode]
    try dsimp only []
    rw [loads_dumps j hw]

/-- Witness for C2 at opcode 1 and the object `(v : 1)`. -/
theorem decode_encode_roundtrip_witness :
    ∃ bs, encode_message 1 (.obj [("v".data, .int 1)]) = some bs ∧
      decode_message bs = some (1, .obj [("v".data, .int 1)]) :=
  decode_encode_roundtrip 1 (.obj [("v".data, .int 1)])
    (by decide) (by decide) (by decide)

end CloneDiscord
